import Mathlib

/-!
Verification development for the muon-rs MuON codec.

This file gives a shallow embedding, in Lean 4, of the parts of the
muon-rs crate that the verified properties below are about: the line
tokenizer and definition resolver (`src/lines.rs`, `src/common.rs`), the
structural deserializer (`src/de.rs`), the structural serializer
(`src/ser.rs`), the numeric scalar parser (`src/parse.rs`) and the date
parser (`src/datetime.rs`).

Modelling conventions:

* Rust string slices are modelled as `List Char` (named `Str`).  The
  tokenizer in `lines.rs` stores byte offsets from `char_indices` and
  splits lines with `split_at` at the byte offset of the separator colon;
  since the byte offset of a character boundary and its character index
  cut a string at the same place, the embedding tracks character indices,
  which yields exactly the same key/value decomposition for every input.
* `Date::new` in `datetime.rs` operates on the UTF-8 bytes of its input,
  so it is embedded over `List Nat` (the byte values).
* Rust machine integers are modelled as `Int` together with an explicit
  bound record `IntTy` carrying the signedness and the `MIN`/`MAX`
  bounds of the target type; the step-by-step `checked_mul`/`checked_add`
  overflow tests of `from_str_radix` are equivalent to one final range
  check because the partial values grow (shrink) monotonically.
* The serde derive layer (field enumeration and recursion into nested
  types) is outside the crate (`#[derive(Serialize, Deserialize)]`); the
  spec treats it as an external collaborator that supplies field-name
  lists and per-field type tags.  It is modelled here by the canonical
  recursion over a `Shape` universe (records, lists, options and the
  supported scalars), which mirrors what the derived code does: match
  keys against declared field names, reject unknown keys and duplicate
  fields, and recurse per field type.
* The input-consuming loops of the deserializer and the serializer
  drivers are written with an explicit fuel parameter; running out of
  fuel yields the artificial error `Error.fuel`, which is never reached
  at the fuel bounds used below.
* The schema prelude subsystem (`src/schema.rs`) is modelled only as far
  as `DefIter` interacts with it (the `finished` flag driving
  `process_schema`); schema node parsing (`Node::from_define`) is not
  modelled, an open schema is modelled as accepting every definition.
  No document considered in the theorems below contains a `:::` line, so
  this branch is never exercised by any statement.
-/

namespace Muon

/-- Model of a Rust string slice: its sequence of characters. -/
abbrev Str := List Char

/-- Convert a Lean string literal to the `Str` model. -/
def str (s : String) : Str := s.data

/-- Parse errors, from `src/error.rs` (`enum ParseError`). -/
inductive ParseError where
  | expectedBool
  | expectedMore
  | expectedChar
  | expectedDate
  | expectedDateTime
  | expectedInt
  | expectedNumber
  | expectedTime
  | expectedTimeOffset
  | invalidDefault
  | invalidIndent
  | invalidSeparator
  | invalidSubstitute
  | invalidType
  | missingField
  | missingKey
  | missingLinefeed
  | missingSeparator
  | unexpectedKey
  | unexpectedSchemaSeparator
  deriving DecidableEq, Repr

/-- Errors from `src/error.rs` (`enum Error`).  Only the variants that the
modelled code paths can produce are included; `deserialize` is the
variant produced through `serde::de::Error::custom` by the derive layer
(carrying its message), and `fuel` is an artefact of the fuel-based
embedding of the input-consuming loops (never reached at the fuel bounds
used in the theorems). -/
inductive Error where
  | unsupportedType (what : String)
  | invalidKey
  | failedParse (e : ParseError)
  | deserialize (msg : String)
  | fuel
  deriving DecidableEq, Repr

/-- Key/value separator type, from `src/common.rs` (`enum Separator`). -/
inductive Separator where
  | normal
  | textAppend
  | textValue
  deriving DecidableEq, Repr

/-- Separator as a string slice (`Separator::as_str`). -/
def Separator.as_str : Separator → Str
  | .normal => str ": "
  | .textAppend => str ":>"
  | .textValue => str ":="

/-- Key/value definition, from `src/common.rs` (`struct Define`). -/
structure Define where
  indent : Nat
  key : Str
  separator : Separator
  value : Str
  deriving DecidableEq, Repr

/-- Constructor `Define::new`. -/
def Define.new (indent : Nat) (key : Str) (separator : Separator)
    (value : Str) : Define :=
  { indent := indent, key := key, separator := separator, value := value }

/-- Split a definition for a list (`Define::split_list`): `splitn(2, ' ')`
on the value; one chunk means no split, otherwise the part before the
first space and the remainder after it. -/
def Define.split_list (d : Define) : Define × Option Define :=
  let before := d.value.takeWhile (· ≠ ' ')
  let rest := d.value.dropWhile (· ≠ ' ')
  match rest with
  | [] => (d, none)
  | _ :: after =>
    (Define.new d.indent d.key d.separator before,
     some (Define.new d.indent d.key d.separator after))

/-- Check indent nesting (`Define::check_indent`). -/
def Define.check_indent (d : Define) (indent : Nat) : Bool :=
  indent == d.indent + 1

/-- Line parsing states, from `src/lines.rs` (`enum State`).  The `Nat`
carried by `keyColon`/`defDone` is the cut position of the colon in the
line (see the module comment on byte offsets versus character indices). -/
inductive State where
  | error (e : ParseError)
  | start
  | comment
  | keyNotQuoted
  | keyQuotedEven (b : Bool)
  | keyQuotedOdd (b : Bool)
  | keyColon (off : Nat)
  | defDone (off : Nat) (separator : Separator)
  deriving DecidableEq, Repr

/-- Line types, from `src/lines.rs` (`enum Line`). -/
inductive Line where
  | schemaSeparator
  | blank
  | comment (text : Str)
  | definition (key : Str) (separator : Separator) (value : Str)
  deriving DecidableEq, Repr

/-- Parse one character (`State::parse_char`). -/
def State.parse_char (s : State) (offset : Nat) (c : Char) : State :=
  match s with
  | .start =>
    if c = ' ' then .start
    else if c = '#' then .comment
    else if c = ':' then
      if offset > 0 then .keyColon offset else .error .missingKey
    else if c = '"' then .keyQuotedOdd false
    else .keyNotQuoted
  | .keyNotQuoted =>
    if c = ':' then .keyColon offset else .keyNotQuoted
  | .keyQuotedOdd b =>
    if c = '"' then .keyQuotedEven b else .keyQuotedOdd true
  | .keyQuotedEven b =>
    if c = '"' then .keyQuotedOdd true
    else if c = ':' ∧ b then .keyColon offset
    else .error .invalidSeparator
  | .keyColon off =>
    if c = ' ' then .defDone off .normal
    else if c = '>' then .defDone off .textAppend
    else if c = '=' then .defDone off .textValue
    else .error .invalidSeparator
  | _ => s

/-- Check if a line state is done (`State::is_done`). -/
def State.is_done : State → Bool
  | .error _ => true
  | .comment => true
  | .defDone _ _ => true
  | _ => false

/-- Convert a state to a `Line` (`State::to_line`). -/
def State.to_line (s : State) (line : Str) : Except ParseError Line :=
  match s with
  | .comment => .ok (.comment line)
  | .defDone off separator =>
    let key := line.take off
    let value := line.drop off
    let v := min value.length separator.as_str.length
    .ok (.definition key separator (value.drop v))
  | .error e => .error e
  | _ => .error .missingSeparator

/-- Character scan of `Line::new`: fold `parse_char` over the line,
returning early through `to_line` as soon as the state is done. -/
def Line.new_go (line : Str) (s : State) (offset : Nat) :
    Str → Except ParseError Line
  | [] => (s.parse_char line.length ' ').to_line line
  | c :: rest =>
    let s' := s.parse_char offset c
    if s'.is_done then s'.to_line line else Line.new_go line s' (offset + 1) rest

/-- Create a line from input (`Line::new`).  The trailing call of
`parse_char` with a space at the end of the line is the source's check
for a missing space after a final colon. -/
def Line.new (line : Str) : Except ParseError Line :=
  if line.length = 0 then .ok .blank
  else if line = str ":::" then .ok .schemaSeparator
  else Line.new_go line .start 0 line

/-- Iterator state for lines, from `src/lines.rs` (`struct LineIter`). -/
structure LineIter where
  input : Str
  error : Option ParseError
  deriving DecidableEq, Repr

/-- Create a new line iterator (`LineIter::new`). -/
def LineIter.new (input : Str) : LineIter :=
  { input := input, error := none }

/-- One step of the line iterator (`<LineIter as Iterator>::next`):
split at the first linefeed, parse the line before it, record a parse
error; no linefeed with input left is `MissingLinefeed`. -/
def LineIter.next (it : LineIter) : LineIter × Option Line :=
  match it.input.dropWhile (· ≠ '\n') with
  | _ :: remaining =>
    match Line.new (it.input.takeWhile (· ≠ '\n')) with
    | .ok ln => ({ input := remaining, error := none }, some ln)
    | .error e => ({ input := remaining, error := some e }, none)
  | [] =>
    if it.input.length > 0 then
      ({ it with error := some .missingLinefeed }, none)
    else ({ it with error := none }, none)

/-- Schema state, from `src/schema.rs` (`struct Schema`): only the
`finished` flag is modelled (see the module comment); schema node
parsing is not modelled and an open schema accepts every definition. -/
structure Schema where
  finished : Bool
  deriving DecidableEq, Repr

/-- Create a new schema (`Schema::new`). -/
def Schema.new : Schema := { finished := false }

/-- Add a define to a schema (`Schema::add_define`): a finished schema
declines the define (`false`), an open one consumes it (`true`).  Node
parsing errors of `Node::from_define` are not modelled. -/
def Schema.add_define (s : Schema) (_d : Define) :
    Except ParseError (Bool × Schema) :=
  if s.finished then .ok (false, s) else .ok (true, s)

/-- Finish a schema (`Schema::finish`): reports whether it was already
finished, and marks it finished. -/
def Schema.finish (s : Schema) : Bool × Schema :=
  if s.finished then (true, s) else (false, { s with finished := true })

/-- Get key indent, if any (`key_indent` in `src/lines.rs`): the count of
leading spaces when it is nonzero and the key is not entirely spaces. -/
def key_indent (key : Str) : Option Nat :=
  let i := (key.takeWhile (· = ' ')).length
  if 0 < i ∧ i < key.length then some i else none

/-- Iterator state for definitions, from `src/lines.rs`
(`struct DefIter`). -/
structure DefIter where
  lines : LineIter
  indent_spaces : Option Nat
  schema : Option Schema
  define : Option Define
  error : Option ParseError
  deriving DecidableEq, Repr

/-- Create a new definition iterator (`DefIter::new`). -/
def DefIter.new (input : Str) : DefIter :=
  { lines := LineIter.new input, indent_spaces := none, schema := none,
    define := none, error := none }

/-- Set the indent spaces if needed (`DefIter::set_indent_spaces`): when
unset, the first key with a nonzero leading-space count must have 2, 3
or 4 of them; anything else is `InvalidIndent`. -/
def DefIter.set_indent_spaces (it : DefIter) (key : Str) :
    Except ParseError DefIter :=
  if it.indent_spaces = none then
    match key_indent key with
    | some sp =>
      if 2 ≤ sp ∧ sp ≤ 4 then .ok { it with indent_spaces := some sp }
      else .error .invalidIndent
    | none => .ok it
  else .ok it

/-- Get the current key length in characters (`DefIter::key_len`). -/
def DefIter.key_len (it : DefIter) : Nat :=
  match it.define with
  | some define => define.indent * (it.indent_spaces.getD 0) + define.key.length
  | none => 0

/-- Get the indent count of a key (`DefIter::indent_count`).  The
source's subtraction loop computes the Euclidean quotient and remainder
of the leading-space count by `indent_spaces` (which is always positive
when set, as asserted in the source); a nonzero remainder is an invalid
indent. -/
def DefIter.indent_count (it : DefIter) (key : Str) : Option Nat :=
  let spaces := (key.takeWhile (· = ' ')).length
  match it.indent_spaces with
  | some indent_spaces =>
    if spaces % indent_spaces = 0 then some (spaces / indent_spaces) else none
  | none => if spaces = 0 then some 0 else none

/-- Make a definition from a key and value (`DefIter::make_define`): an
all-space key of exactly the current rendered key width repeats the
current definition's indent and key; otherwise the leading spaces become
the indent and are trimmed from the key; anything else is
`InvalidIndent`. -/
def DefIter.make_define (it : DefIter) (key : Str) (separator : Separator)
    (value : Str) : Except ParseError Define :=
  if key.all (· = ' ') then
    if key.length = it.key_len then
      match it.define with
      | some define =>
        .ok (Define.new define.indent define.key separator value)
      | none => .error .invalidIndent
    else .error .invalidIndent
  else
    match it.indent_count key with
    | some indent => .ok (Define.new indent (key.dropWhile (· = ' ')) separator value)
    | none => .error .invalidIndent

/-- Process a define (`DefIter::process_define`): learn the indent unit,
build the definition, and divert it into an open schema when no
definition has been emitted yet. -/
def DefIter.process_define (it : DefIter) (key : Str) (separator : Separator)
    (value : Str) : DefIter × Except ParseError (Option Define) :=
  match it.set_indent_spaces key with
  | .error e => (it, .error e)
  | .ok it1 =>
    match it1.make_define key separator value with
    | .error e => (it1, .error e)
    | .ok d =>
      match it1.define, it1.schema with
      | none, some schema =>
        match schema.add_define d with
        | .error e => (it1, .error e)
        | .ok (true, schema') => ({ it1 with schema := some schema' }, .ok none)
        | .ok (false, schema') => ({ it1 with schema := some schema' }, .ok (some d))
      | _, _ => (it1, .ok (some d))

/-- Process a schema separator (`DefIter::process_schema`). -/
def DefIter.process_schema (it : DefIter) :
    DefIter × Except ParseError (Option Define) :=
  match it.define, it.schema with
  | none, none => ({ it with schema := some Schema.new }, .ok none)
  | none, some schema =>
    let (finished, schema') := schema.finish
    if finished then (it, .error .unexpectedSchemaSeparator)
    else ({ it with schema := some schema' }, .ok none)
  | _, _ => (it, .error .unexpectedSchemaSeparator)

/-- Process a line (`DefIter::process_line`). -/
def DefIter.process_line (it : DefIter) (ln : Line) :
    DefIter × Except ParseError (Option Define) :=
  match ln with
  | .schemaSeparator => it.process_schema
  | .blank => (it, .ok none)
  | .comment _ => (it, .ok none)
  | .definition key separator value => it.process_define key separator value

/-- Advancing the line iterator to an actual line strictly shortens its
input, which bounds the loop of `DefIter::next`. -/
theorem LineIter.next_some_shorter (it : LineIter) (it' : LineIter) (ln : Line)
    (h : it.next = (it', some ln)) : it'.input.length < it.input.length := by
  unfold LineIter.next at h
  rcases hd : it.input.dropWhile (· ≠ '\n') with _ | ⟨c, remaining⟩
  · rw [hd] at h
    by_cases hl : it.input.length > 0 <;> simp [hl] at h
  · rw [hd] at h
    rcases hn : Line.new (it.input.takeWhile (· ≠ '\n')) with e | l <;>
      rw [hn] at h
    · simp at h
    · simp only [Prod.mk.injEq, Option.some.injEq] at h
      obtain ⟨h1, h2⟩ := h
      have hlen : (it.input.takeWhile (· ≠ '\n')).length +
          (it.input.dropWhile (· ≠ '\n')).length = it.input.length := by
        rw [← List.length_append, List.takeWhile_append_dropWhile]
      rw [hd] at hlen
      rw [← h1]
      simp only [List.length_cons] at hlen
      simp only
      omega

/-- Learning the indent unit only touches the resolver's own state,
never the line iterator inside it. -/
theorem DefIter.set_indent_spaces_lines (it it1 : DefIter) (key : Str)
    (h : it.set_indent_spaces key = .ok it1) : it1.lines = it.lines := by
  unfold DefIter.set_indent_spaces at h
  split at h
  · split at h
    · split at h
      · simp only [Except.ok.injEq] at h
        rw [← h]
      · simp at h
    · simp only [Except.ok.injEq] at h
      rw [h]
  · simp only [Except.ok.injEq] at h
    rw [← h]

/-- Line-processing only touches the resolver's own state, never the
line iterator inside it. -/
theorem DefIter.process_line_lines (it : DefIter) (ln : Line) :
    (it.process_line ln).1.lines = it.lines := by
  rcases ln with _ | _ | t | ⟨k, s, v⟩
  · show (it.process_schema).1.lines = it.lines
    unfold DefIter.process_schema
    rcases it.define with _ | d <;> rcases it.schema with _ | sch <;> simp
    rcases hf : sch.finish with ⟨b, sch'⟩
    rcases b <;> simp
  · rfl
  · rfl
  · show (it.process_define k s v).1.lines = it.lines
    unfold DefIter.process_define
    rcases hsi : it.set_indent_spaces k with e | it1 <;> simp only
    · have h1 : it1.lines = it.lines :=
        DefIter.set_indent_spaces_lines it it1 k hsi
      rcases hmd : it1.make_define k s v with e | d
      · simpa using h1
      · rcases it1.define with _ | d0 <;> rcases it1.schema with _ | sch <;>
          simp only
        · simpa using h1
        · rcases Schema.add_define sch d with e | ⟨b, sch'⟩
          · simpa using h1
          · rcases b <;> simpa using h1
        · simpa using h1
        · simpa using h1

/-- The loop of `<DefIter as Iterator>::next`: pull lines until a
definition is produced, an error occurs, or the lines run out.  The
fuel argument only bounds the loop; by `LineIter.next_some_shorter` and
`DefIter.process_line_lines`, each iteration consumes at least one
input character, so the bound `input.length + 1` used by `next` is
never exhausted and the fuel-out branch is unreachable. -/
def DefIter.next_go : Nat → DefIter → DefIter × Option Define
  | 0, it => (it, none)
  | fuel+1, it =>
    match it.lines.next with
    | (lines', some ln) =>
      match DefIter.process_line { it with lines := lines' } ln with
      | (it2, .ok none) => DefIter.next_go fuel it2
      | (it2, .ok (some d)) => ({ it2 with define := some d }, some d)
      | (it2, .error e) => ({ it2 with error := some e }, none)
    | (lines', none) =>
      ({ it with lines := lines', error := lines'.error }, none)

/-- One step of the definition iterator (`<DefIter as Iterator>::next`);
the source clears `error` on entry. -/
def DefIter.next (it : DefIter) : DefIter × Option Define :=
  DefIter.next_go (it.lines.input.length + 1) { it with error := none }

/-- Bounds of a Rust machine-integer type: signedness and the
`MIN`/`MAX` values.  The value itself is carried as an unbounded
`Int`. -/
structure IntTy where
  signed : Bool
  min : Int
  max : Int
  deriving DecidableEq, Repr

/-- Rust `u8`. -/
def IntTy.u8 : IntTy := { signed := false, min := 0, max := 255 }

/-- Rust `u16`. -/
def IntTy.u16 : IntTy := { signed := false, min := 0, max := 65535 }

/-- Rust `u32`. -/
def IntTy.u32 : IntTy := { signed := false, min := 0, max := 4294967295 }

/-- Rust `u64`. -/
def IntTy.u64 : IntTy := { signed := false, min := 0, max := 18446744073709551615 }

/-- Rust `i8`. -/
def IntTy.i8 : IntTy := { signed := true, min := -128, max := 127 }

/-- Rust `i16`. -/
def IntTy.i16 : IntTy := { signed := true, min := -32768, max := 32767 }

/-- Rust `i32`. -/
def IntTy.i32 : IntTy := { signed := true, min := -2147483648, max := 2147483647 }

/-- Rust `i64`. -/
def IntTy.i64 : IntTy :=
  { signed := true, min := -9223372036854775808, max := 9223372036854775807 }

namespace parse

/-- Rust `char::to_digit`: decimal digits, then letters with value 10
upward, accepted when below the radix. -/
def char_to_digit (c : Char) (radix : Nat) : Option Nat :=
  let v :=
    if '0' ≤ c ∧ c ≤ '9' then some (c.toNat - '0'.toNat)
    else if 'a' ≤ c ∧ c ≤ 'z' then some (c.toNat - 'a'.toNat + 10)
    else if 'A' ≤ c ∧ c ≤ 'Z' then some (c.toNat - 'A'.toNat + 10)
    else none
  match v with
  | some d => if d < radix then some d else none
  | none => none

/-- Accumulate the value of a digit string in the given radix; `none` if
any character is not a digit of the radix. -/
def digits_to_nat (radix : Nat) (ds : Str) : Option Nat :=
  ds.foldl
    (fun acc c =>
      match acc, char_to_digit c radix with
      | some a, some d => some (a * radix + d)
      | _, _ => none)
    (some 0)

/-- Rust `from_str_radix` for the integer type `ty` (also the semantics
of `str::parse` for integers, with radix 10): an optional sign (`-` only
for signed types), then a nonempty digit string.  The per-step
`checked_mul`/`checked_add` overflow tests of the source are equivalent
to the single final range check used here, because the partial values
grow (for a positive sign) or shrink (for a negative sign)
monotonically, so an intermediate value overflows exactly when the final
value is out of range. -/
def from_str_radix (ty : IntTy) (radix : Nat) (s : Str) : Option Int :=
  match s with
  | [] => none
  | c :: rest =>
    let (sign, ds) :=
      if c = '+' then ((some false : Option Bool), rest)
      else if c = '-' then
        (if ty.signed then (some true, rest) else (none, rest))
      else (some false, s)
    match sign with
    | none => none
    | some neg =>
      if ds.isEmpty then none
      else
        match digits_to_nat radix ds with
        | none => none
        | some v =>
          let n : Int := if neg then -(v : Int) else (v : Int)
          if ty.min ≤ n ∧ n ≤ ty.max then some n else none

/-- The sign characters (`SIGNS` in `src/parse.rs`). -/
def starts_with_sign : Str → Bool
  | c :: _ => c = '-' ∨ c = '+'
  | [] => false

/-- Strip one leading sign character if present
(`value.strip_prefix(SIGNS).unwrap_or(value)`). -/
def strip_sign (s : Str) : Str :=
  match s with
  | c :: rest => if c = '-' ∨ c = '+' then rest else s
  | [] => s

/-- Check of one `split('_')` section in `sanitize_num`: the section's
first and last characters must exist and be digits in the radix (the
`?` operator in the source turns a missing character into failure). -/
def section_ok (radix : Nat) (sec : Str) : Bool :=
  match sec.head?, sec.getLast? with
  | some c1, some c2 =>
    (char_to_digit c1 radix).isSome ∧ (char_to_digit c2 radix).isSome
  | _, _ => false

/-- Sanitize a number (`sanitize_num` in `src/parse.rs`): with no
underscore the value passes unchanged; otherwise, after stripping one
sign, every `split('_')` section must begin and end with a digit of the
radix, and the underscores are removed. -/
def sanitize_num (value : Str) (radix : Nat) : Option Str :=
  if ¬ value.contains '_' then some value
  else if ((strip_sign value).splitOn '_').all (section_ok radix) then
    some (value.filter (· ≠ '_'))
  else none

/-- Parse an integer in an alternative radix (`int_radix` in
`src/parse.rs`): signs are not allowed in alternative radices. -/
def int_radix (ty : IntTy) (v : Str) (radix : Nat) : Option Int :=
  if starts_with_sign v then none
  else (sanitize_num v radix).bind (from_str_radix ty radix)

/-- Parse an integer from a string slice (`int` in `src/parse.rs`):
a `b` prefix selects binary, an `x` prefix hexadecimal, otherwise
decimal. -/
def int (ty : IntTy) (v : Str) : Option Int :=
  match v with
  | 'b' :: binary => int_radix ty binary 2
  | 'x' :: hexadecimal => int_radix ty hexadecimal 16
  | _ => (sanitize_num v 10).bind (from_str_radix ty 10)

/-- Parse a bool from a string slice (`bool` in `src/parse.rs`,
`str::parse::<bool>` accepts exactly `true` and `false`). -/
def bool (value : Str) : Option Bool :=
  if value = str "true" then some true
  else if value = str "false" then some false
  else none

/-- Parse a char from a string slice (`char` in `src/parse.rs`,
`str::parse::<char>` accepts exactly one character). -/
def char (value : Str) : Option Char :=
  match value with
  | [c] => some c
  | _ => none

end parse

/-- Date with no time or offset, from `src/datetime.rs`
(`struct Date`). -/
structure Date where
  year : Nat
  month : Nat
  day : Nat
  deriving DecidableEq, Repr

/-- Convert an ASCII byte to a number (`digit` in `src/datetime.rs`). -/
def digit (b : Nat) : Option Nat :=
  if 48 ≤ b ∧ b ≤ 57 then some (b - 48) else none

/-- Parse a 4-digit ASCII decimal number (`parse_4_digits`). -/
def parse_4_digits (ascii : List Nat) : Option Nat :=
  match ascii with
  | [b0, b1, b2, b3] =>
    match digit b0, digit b1, digit b2, digit b3 with
    | some d0, some d1, some d2, some d3 =>
      some (d0 * 1000 + d1 * 100 + d2 * 10 + d3)
    | _, _, _, _ => none
  | _ => none

/-- Parse a 4-digit year (`parse_year`). -/
def parse_year (year : List Nat) : Option Nat :=
  parse_4_digits year

/-- Parse a 2-digit ASCII decimal number (`parse_2_digits`). -/
def parse_2_digits (ascii : List Nat) : Option Nat :=
  match ascii with
  | [b0, b1] =>
    match digit b0, digit b1 with
    | some d0, some d1 => some (d0 * 10 + d1)
    | _, _ => none
  | _ => none

/-- Parse a 2-digit month, 1 to 12 (`parse_month`). -/
def parse_month (month : List Nat) : Option Nat :=
  match parse_2_digits month with
  | some m => if 1 ≤ m ∧ m ≤ 12 then some m else none
  | none => none

/-- Parse a 2-digit day, 1 to 31 (`parse_day`). -/
def parse_day (day : List Nat) : Option Nat :=
  match parse_2_digits day with
  | some d => if 1 ≤ d ∧ d ≤ 31 then some d else none
  | none => none

/-- Check if a year is a leap year (`is_leap_year`). -/
def is_leap_year (year : Nat) : Bool :=
  year % 4 = 0 ∧ (year % 100 ≠ 0 ∨ year % 400 = 0)

/-- Determine the number of days in a month (`days_in_month`). -/
def days_in_month (year : Nat) (month : Nat) : Option Nat :=
  if month = 4 ∨ month = 6 ∨ month = 9 ∨ month = 11 then some 30
  else if month = 1 ∨ month = 3 ∨ month = 5 ∨ month = 7 ∨ month = 8 ∨
      month = 10 ∨ month = 12 then some 31
  else if month = 2 then some (if is_leap_year year then 29 else 28)
  else none

/-- Create a new date (`Date::new`): over the UTF-8 bytes of the input,
exactly 10 bytes `YYYY-MM-DD` (45 is the dash), with the day bounded by
the actual days of the month. -/
def Date.new (bytes : List Nat) : Except ParseError Date :=
  if bytes.length = 10 ∧ bytes.getD 4 0 = 45 ∧ bytes.getD 7 0 = 45 then
    match parse_year (bytes.take 4) with
    | some year =>
      match parse_month ((bytes.drop 5).take 2) with
      | some month =>
        match days_in_month year month with
        | some mdays =>
          match parse_day (bytes.drop 8) with
          | some day =>
            if day ≤ mdays then .ok { year := year, month := month, day := day }
            else .error .expectedDate
          | none => .error .expectedDate
        | none => .error .expectedDate
      | none => .error .expectedDate
    | none => .error .expectedDate
  else .error .expectedDate

/-- UTF-8 bytes of an ASCII string: for ASCII text, each character is
one byte whose value is the character's code. -/
def ascii_bytes (s : String) : List Nat :=
  s.data.map Char.toNat

/-- Leap-year rule transcribed from the specification's wording (year
divisible by 4 and (not divisible by 100, or divisible by 400)), kept
separate from the source's `is_leap_year` so the two can be compared. -/
def leap_year_spec (year : Nat) : Bool :=
  year % 4 = 0 ∧ (year % 100 ≠ 0 ∨ year % 400 = 0)

/-- Days-in-month table transcribed from the specification's wording
(February has 29 days exactly in leap years; April, June, September and
November have 30; every other month has 31), for months 1 to 12. -/
def days_in_month_spec (year month : Nat) : Nat :=
  if month = 2 then (if leap_year_spec year then 29 else 28)
  else if month = 4 ∨ month = 6 ∨ month = 9 ∨ month = 11 then 30
  else 31

/-- Acceptance predicate transcribed from the specification's wording:
date parsing accepts exactly the 10-character strings `YYYY-MM-DD`
(four ASCII digits, a dash, two digits, a dash, two digits) whose month
is between 1 and 12 and whose day is between 1 and the actual number of
days in that month. -/
def date_spec_accepts (bytes : List Nat) : Bool :=
  match bytes with
  | [y0, y1, y2, y3, dash1, m0, m1, dash2, d0, d1] =>
    match digit y0, digit y1, digit y2, digit y3, digit m0, digit m1,
        digit d0, digit d1 with
    | some a, some b, some c, some d, some e, some f, some g, some h =>
      dash1 = 45 ∧ dash2 = 45 ∧
      (1 ≤ e * 10 + f ∧ e * 10 + f ≤ 12) ∧
      (1 ≤ g * 10 + h ∧
        g * 10 + h ≤ days_in_month_spec
          (a * 1000 + b * 100 + c * 10 + d) (e * 10 + f))
    | _, _, _, _, _, _, _, _ => false
  | _ => false

/-- Branch state, from `src/de.rs` (`enum BranchState`). -/
inductive BranchState where
  | visit
  | cleanup
  deriving DecidableEq, Repr

/-- Branch for the deserializer stack, from `src/de.rs`
(`struct Branch`). -/
structure Branch where
  fields : List Str
  visited : List Bool
  state : BranchState
  key : Option Str
  list : Bool
  substitute : Option Str
  deriving DecidableEq, Repr

/-- Create a new branch with fields (`Branch::with_fields`). -/
def Branch.with_fields (fields : List Str) : Branch :=
  { fields := fields, visited := fields.map (fun _ => false),
    state := .visit, key := none, list := false, substitute := none }

/-- Create a new branch (`Branch::new`). -/
def Branch.new : Branch := Branch.with_fields []

/-- Get the first field (`Branch::first_field`). -/
def Branch.first_field (b : Branch) : Option Str :=
  b.fields.head?

/-- Visit one field (`Branch::visit`): store the key and mark every
declared field equal to it as visited. -/
def Branch.visit (b : Branch) (key : Option Str) : Branch :=
  match key with
  | some f =>
    let visited := (b.fields.zip b.visited).map
      (fun p => if p.1 = f then true else p.2)
    { b with key := key, visited := visited }
  | none => { b with key := none }

/-- The marking loop of `Branch::cleanup_visit`: find the first
unvisited field, mark it visited, and return it. -/
def cleanup_visit_go : List Str → List Bool → Option (Str × List Bool)
  | f :: fs, v :: vs =>
    if v then
      match cleanup_visit_go fs vs with
      | some (k, vs') => some (k, true :: vs')
      | none => none
    else some (f, true :: vs)
  | _, _ => none

/-- Cleanup state for one field (`Branch::cleanup_visit`): in cleanup
state, yield the first unvisited declared field and mark it. -/
def Branch.cleanup_visit (b : Branch) : Option Str × Branch :=
  match b.state with
  | .cleanup =>
    match cleanup_visit_go b.fields b.visited with
    | some (k, vs') => (some k, { b with visited := vs' })
    | none => (none, b)
  | .visit => (none, b)

/-- Check whether all fields have been visited
(`Branch::all_visited`). -/
def Branch.all_visited (b : Branch) : Bool :=
  b.visited.all id

/-- Check if the current field is the substitute
(`Branch::is_substitute`). -/
def Branch.is_substitute (b : Branch) : Bool :=
  b.key.isSome ∧ b.key = b.substitute

/-- Iterator state for key/value mappings, from `src/de.rs`
(`struct MappingIter`).  The branch stack grows at the head of the
list (the head is `Vec::last`). -/
structure MappingIter where
  defs : DefIter
  define : Option Define
  stack : List Branch
  deriving DecidableEq, Repr

/-- Create a new key/value mapping iterator (`MappingIter::new`). -/
def MappingIter.new (input : Str) : MappingIter :=
  { defs := DefIter.new input, define := none, stack := [] }

/-- Check if the current define is a list (`MappingIter::is_list`). -/
def MappingIter.is_list (m : MappingIter) : Bool :=
  match m.stack.head? with
  | some branch => branch.list
  | none => false

/-- Get the next define in a list (`MappingIter::next_list`): for the
`Normal` separator the pending define is split at its first space, for
text separators it is consumed whole. -/
def MappingIter.next_list (m : MappingIter) : MappingIter × Option Define :=
  match m.define with
  | some define =>
    match define.separator with
    | .normal =>
      let (d0, d1) := define.split_list
      ({ m with define := d1 }, some d0)
    | _ => ({ m with define := none }, some define)
  | none => (m, none)

/-- Pull a define from the resolver into the one-item lookahead slot if
it is empty (the shared first half of `next` and `peek`). -/
def MappingIter.fill (m : MappingIter) : MappingIter :=
  if m.define.isNone then
    let (defs', d) := m.defs.next
    { m with defs := defs', define := d }
  else m

/-- One step of `<MappingIter as Iterator>::next`. -/
def MappingIter.next (m : MappingIter) : MappingIter × Option Define :=
  let m := m.fill
  if m.is_list then m.next_list
  else ({ m with define := none }, m.define)

/-- Peek at the next define (`MappingIter::peek`): a pending resolver
error surfaces here, otherwise the lookahead slot is filled and
returned without being consumed. -/
def MappingIter.peek (m : MappingIter) :
    Except Error (Option Define × MappingIter) :=
  match m.defs.error with
  | some e => .error (.failedParse e)
  | none =>
    let m := m.fill
    .ok (m.define, m)

/-- Push a branch onto the stack (`MappingIter::push_stack`). -/
def MappingIter.push_stack (m : MappingIter) (branch : Branch) : MappingIter :=
  { m with stack := branch :: m.stack }

/-- Pop from the branch stack (`MappingIter::pop_stack`). -/
def MappingIter.pop_stack (m : MappingIter) : MappingIter :=
  { m with stack := m.stack.tail }

/-- Check record substitute (`MappingIter::check_substitute`): when the
top branch has a first declared field and a define is pending, the
define is taken; with a non-empty value (and a nonempty stack) it is
re-issued one level deeper under the first field's name, which is
recorded as the branch's substitute; with an empty value it is simply
consumed. -/
def MappingIter.check_substitute (m : MappingIter) : MappingIter :=
  let indent := m.stack.length
  match m.stack with
  | branch :: rest =>
    match branch.first_field with
    | some key =>
      match m.define with
      | some define =>
        if define.value ≠ [] ∧ indent > 0 then
          { m with
            stack := { branch with substitute := some key } :: rest,
            define := some (Define.new (indent - 1) key define.separator
              define.value) }
        else { m with define := none }
      | none => m
    | none => m
  | [] => m

/-- Set the current key on the stack (`MappingIter::set_key`). -/
def MappingIter.set_key (m : MappingIter) (key : Option Str) : MappingIter :=
  match m.stack with
  | branch :: rest => { m with stack := branch.visit key :: rest }
  | [] => m

/-- Set the top of the stack to a list (`MappingIter::set_list`). -/
def MappingIter.set_list (m : MappingIter) (list : Bool) : MappingIter :=
  match m.stack with
  | branch :: rest => { m with stack := { branch with list := list } :: rest }
  | [] => m

/-- Check whether the indent nesting matches (`MappingIter::check_indent`). -/
def MappingIter.check_indent (m : MappingIter) :
    Except Error (Bool × MappingIter) := do
  let (d, m) ← m.peek
  match d with
  | some define => .ok (define.check_indent m.stack.length, m)
  | none => .ok (false, m)

/-- Get the state of the current branch (`MappingIter::branch_state`). -/
def MappingIter.branch_state (m : MappingIter) : BranchState :=
  match m.stack.head? with
  | some branch => branch.state
  | none => .cleanup

/-- Check whether the current branch is done
(`MappingIter::check_branch_done`): an indent mismatch switches the
branch to cleanup; the branch is done when it is in cleanup with all
fields visited. -/
def MappingIter.check_branch_done (m : MappingIter) :
    Except Error (Bool × MappingIter) := do
  let (ci, m) ← m.check_indent
  match m.stack with
  | branch :: rest =>
    let branch := if ¬ ci then { branch with state := .cleanup } else branch
    .ok ((branch.state = BranchState.cleanup ∧ branch.all_visited : Bool),
      { m with stack := branch :: rest })
  | [] => .ok (true, m)

/-- Check that the key matches (`MappingIter::check_key`). -/
def MappingIter.check_key (m : MappingIter) :
    Except Error (Bool × MappingIter) :=
  match m.stack with
  | branch :: _ =>
    match branch.key with
    | some k => do
      let (d, m) ← m.peek
      match d with
      | some define => .ok ((define.key = k : Bool), m)
      | none => .ok (false, m)
    | none => .ok (false, m)
  | [] => .ok (false, m)

/-- Check if the next item is appended (`MappingIter::is_append`);
`&&` short-circuits in the source, so the key is only checked when the
indent matches. -/
def MappingIter.is_append (m : MappingIter) :
    Except Error (Bool × MappingIter) := do
  let (ci, m) ← m.check_indent
  if ci then m.check_key else .ok (false, m)

/-- Check if the separator is a text append
(`MappingIter::is_separator_text_append`). -/
def MappingIter.is_separator_text_append (m : MappingIter) :
    Except Error (Bool × MappingIter) := do
  let (d, m) ← m.peek
  match d with
  | some define => .ok ((define.separator = Separator.textAppend : Bool), m)
  | none => .ok (false, m)

/-- Check if the next item is text appended
(`MappingIter::is_text_append`), short-circuiting like the source. -/
def MappingIter.is_text_append (m : MappingIter) :
    Except Error (Bool × MappingIter) := do
  let (app, m) ← m.is_append
  if app then m.is_separator_text_append else .ok (false, m)

/-- Parse a define option into a result (`Deserializer::define_result`):
a missing define surfaces the resolver's error, or `ExpectedMore`. -/
def define_result (m : MappingIter) (d : Option Define) :
    Except Error Define :=
  match d with
  | some define => .ok define
  | none =>
    match m.defs.error with
    | some e => .error (.failedParse e)
    | none => .error (.failedParse .expectedMore)

/-- Peek the current key (`Deserializer::peek_key`). -/
def peek_key (m : MappingIter) : Except Error (Str × MappingIter) := do
  let (d, m) ← m.peek
  let define ← define_result m d
  .ok (define.key, m)

/-- Get the current value (`Deserializer::get_value`). -/
def get_value (m : MappingIter) : Except Error (Str × MappingIter) :=
  let (m, d) := m.next
  match define_result m d with
  | .ok define => .ok (define.value, m)
  | .error e => .error e

/-- Continuation-joining loop of `Deserializer::parse_text`: while the
next definition is a text append for the current key, its value is
joined with a linefeed. -/
def parse_text_go : Nat → Str → Str → MappingIter →
    Except Error (Str × MappingIter)
  | 0, _, _, _ => .error .fuel
  | fuel+1, value, val, m => do
    let (ta, m) ← m.is_text_append
    if ta then do
      let (val', m) ← get_value m
      parse_text_go fuel (value ++ val ++ str "\n") val' m
    else .ok (value ++ val, m)

/-- Parse a text value (`Deserializer::parse_text`). -/
def parse_text (fuel : Nat) (m : MappingIter) :
    Except Error (Str × MappingIter) := do
  let (val, m) ← get_value m
  parse_text_go fuel [] val m

/-- Parse a char value (`Deserializer::parse_char`): one character on
one line, or a newline written as an empty value followed by one empty
text-append continuation. -/
def parse_char (m : MappingIter) : Except Error (Char × MappingIter) := do
  let (val, m) ← get_value m
  let (ta, m) ← m.is_text_append
  if ta ∧ val.isEmpty then do
    let (val2, m) ← get_value m
    let (ta2, m) ← m.is_text_append
    if ¬ ta2 ∧ val2.isEmpty then .ok ('\n', m)
    else .error (.failedParse .expectedChar)
  else do
    let (ta3, m) ← m.is_text_append
    if ¬ ta3 then
      match parse.char val with
      | some c => .ok (c, m)
      | none => .error (.failedParse .expectedChar)
    else .error (.failedParse .expectedChar)

/-- Parse a bool value (`Deserializer::parse_bool`). -/
def parse_bool (m : MappingIter) : Except Error (Bool × MappingIter) := do
  let (val, m) ← get_value m
  match parse.bool val with
  | some b => .ok (b, m)
  | none => .error (.failedParse .expectedBool)

/-- Parse an int value (`Deserializer::parse_int`). -/
def parse_int (ty : IntTy) (m : MappingIter) :
    Except Error (Int × MappingIter) := do
  let (val, m) ← get_value m
  match parse.int ty val with
  | some n => .ok (n, m)
  | none => .error (.failedParse .expectedInt)

/-- Universe of host shapes supplied by the (external) serde derive
layer: the supported scalars, options, lists, and records with their
ordered field names.  A record's field list is folded into the same
inductive as a chain of `sFCons` cells ending in `sFNil` (a plain,
non-nested inductive keeps every function over shapes computable by the
kernel); the chain constructors only ever appear directly under
`sRecord`, and `record_shape` builds well-formed records from ordinary
Lean lists. -/
inductive Shape where
  | sBool
  | sInt (ty : IntTy)
  | sText
  | sChar
  | sOption (s : Shape)
  | sList (s : Shape)
  | sRecord (fields : Shape)
  | sFNil
  | sFCons (name : Str) (s : Shape) (rest : Shape)
  deriving DecidableEq, Repr

/-- Build a record shape from an ordered field list. -/
def record_shape (fields : List (Str × Shape)) : Shape :=
  .sRecord (fields.foldr (fun p acc => .sFCons p.1 p.2 acc) .sFNil)

/-- Host values of the shapes in `Shape`, with the same chain encoding:
`vSome`/`vNone` for options, `vList` over a `vLCons`/`vLNil` chain, and
`vRecord` over a `vFCons`/`vFNil` chain.  `list_value`, `record_value`
and `option_value` build them from ordinary Lean lists and options. -/
inductive Value where
  | vBool (b : Bool)
  | vInt (n : Int)
  | vText (s : Str)
  | vChar (c : Char)
  | vNone
  | vSome (v : Value)
  | vList (vs : Value)
  | vLNil
  | vLCons (v : Value) (rest : Value)
  | vRecord (fields : Value)
  | vFNil
  | vFCons (name : Str) (v : Value) (rest : Value)
  deriving DecidableEq, Repr

/-- Build a list value from a Lean list. -/
def list_value (vs : List Value) : Value :=
  .vList (vs.foldr .vLCons .vLNil)

/-- Build a record value from an ordered field list. -/
def record_value (fields : List (Str × Value)) : Value :=
  .vRecord (fields.foldr (fun p acc => .vFCons p.1 p.2 acc) .vFNil)

/-- Build an option value from a Lean option. -/
def option_value : Option Value → Value
  | some v => .vSome v
  | none => .vNone

/-- The declared field names of a record's field chain (what the derive
layer passes as `fields: &'static [&'static str]`). -/
def fields_names : Shape → List Str
  | .sFCons name _ rest => name :: fields_names rest
  | _ => []

/-- Look up a declared field's shape by name in a field chain. -/
def fields_lookup (key : Str) : Shape → Option Shape
  | .sFCons name s rest => if name = key then some s else fields_lookup key rest
  | _ => none

/-- The derive layer's initial value slots for a record's fields. -/
def fields_slots : Shape → List (Str × Option Value)
  | .sFCons name _ rest => (name, none) :: fields_slots rest
  | _ => []

/-- Read the next map key (`Deserializer::deserialize_identifier`): in
cleanup state the next unvisited declared field is yielded, otherwise
the pending define's key is peeked and recorded as current. -/
def deserialize_identifier (m : MappingIter) :
    Except Error (Str × MappingIter) :=
  match m.stack with
  | branch :: rest =>
    match branch.cleanup_visit with
    | (some field, branch') => .ok (field, { m with stack := branch' :: rest })
    | (none, _) => do
      let (key, m) ← peek_key m
      .ok (key, m.set_key (some key))
  | [] => do
    let (key, m) ← peek_key m
    .ok (key, m.set_key (some key))

/-- Update the derive layer's slot for a field with its decoded value. -/
def set_slot (slots : List (Str × Option Value)) (key : Str) (v : Value) :
    List (Str × Option Value) :=
  slots.map (fun p => if p.1 = key then (p.1, some v) else p)

/-- Collect the derive layer's slots into a record value; `none` when a
required field never received a value. -/
def collect_slots : List (Str × Option Value) → Option (List (Str × Value))
  | [] => some []
  | (k, some v) :: rest => (collect_slots rest).map (fun l => (k, v) :: l)
  | (_, none) :: rest => none

/-- Work item of the deserializer driver: deserialize one shape, run
the derive layer's map loop over a record's fields, or run its sequence
loop; packaged in one type so that the driver is a single function
structurally recursive on its fuel. -/
inductive DeTask where
  | shape (sh : Shape)
  | mapLoop (fields : Shape) (slots : List (Str × Option Value))
  | seqLoop (t : Shape) (acc : List Value)

/-- Drive the deserializer, mirroring the dispatch of
`de::Deserializer` in `src/de.rs` together with the derive layer's
loops.

* `shape`: scalars go through the `parse_*` helpers;
  `deserialize_str`'s missing-field check; `deserialize_option`'s
  cleanup/substitute handling; `deserialize_seq`'s list flag and
  substitute check; `deserialize_struct` pushes a branch with the
  declared field names and runs `check_substitute`.  A stray field
  chain constructor outside `sRecord` is not a serde type
  (`UnsupportedType`).
* `mapLoop` (`visit_map` over `MapAccess`,
  `next_key_seed`/`next_value_seed`): while the branch is not done,
  read a key; a declared field is deserialized by its shape into its
  slot (a second occurrence of a field is a duplicate-field error from
  the derive layer), an undeclared key goes through
  `deserialize_ignored_any`, which in this crate is `deserialize_any`:
  it reads the identifier again and fails with `UnexpectedKey`.
* `seqLoop` (`visit_seq` over `SeqAccess`, `next_element_seed`): while
  the next define is an append for the current key, deserialize one
  element; on the first mismatch clear the list flag and current key. -/
def deserialize_go : Nat → DeTask → MappingIter →
    Except Error (Value × MappingIter)
  | 0, _, _ => .error .fuel
  | fuel+1, .shape sh, m =>
    match sh with
    | .sBool => do
      let (b, m) ← parse_bool m
      .ok (.vBool b, m)
    | .sInt ty => do
      let (n, m) ← parse_int ty m
      .ok (.vInt n, m)
    | .sChar => do
      let (c, m) ← parse_char m
      .ok (.vChar c, m)
    | .sText =>
      if m.branch_state = BranchState.cleanup then
        .error (.failedParse .missingField)
      else do
        let (s, m) ← parse_text fuel m
        .ok (.vText s, m)
    | .sOption t =>
      match m.stack.head? with
      | some branch =>
        if branch.state = BranchState.cleanup then .ok (.vNone, m)
        else if branch.is_substitute then
          .error (.failedParse .invalidSubstitute)
        else do
          let (v, m) ← deserialize_go fuel (.shape t) m
          .ok (.vSome v, m)
      | none => do
        let (v, m) ← deserialize_go fuel (.shape t) m
        .ok (.vSome v, m)
    | .sList t =>
      let m := m.set_list true
      match m.stack.head? with
      | some branch =>
        if branch.is_substitute then .error (.failedParse .invalidSubstitute)
        else deserialize_go fuel (.seqLoop t []) m
      | none => deserialize_go fuel (.seqLoop t []) m
    | .sRecord fields =>
      let m := m.push_stack (Branch.with_fields (fields_names fields))
      let m := m.check_substitute
      deserialize_go fuel (.mapLoop fields (fields_slots fields)) m
    | .sFNil => .error (.unsupportedType "shape")
    | .sFCons _ _ _ => .error (.unsupportedType "shape")
  | fuel+1, .mapLoop fields slots, m => do
    let (done, m) ← m.check_branch_done
    if done then
      let m := m.pop_stack
      match collect_slots slots with
      | some vals => .ok (record_value vals, m)
      | none => .error (.deserialize "missing field")
    else do
      let (key, m) ← deserialize_identifier m
      match fields_lookup key fields with
      | some shape =>
        match List.lookup key slots with
        | some (some _) => .error (.deserialize "duplicate field")
        | _ => do
          let (v, m) ← deserialize_go fuel (.shape shape) m
          deserialize_go fuel (.mapLoop fields (set_slot slots key v)) m
      | none => do
        let (_, m) ← deserialize_identifier m
        .error (.failedParse .unexpectedKey)
  | fuel+1, .seqLoop t acc, m => do
    let (app, m) ← m.is_append
    if app then do
      let (v, m) ← deserialize_go fuel (.shape t) m
      deserialize_go fuel (.seqLoop t (acc ++ [v])) m
    else
      .ok (list_value acc, (m.set_list false).set_key none)

/-- Deserialize one host shape (entry into `deserialize_go`). -/
def deserialize_shape (fuel : Nat) (sh : Shape) (m : MappingIter) :
    Except Error (Value × MappingIter) :=
  deserialize_go fuel (.shape sh) m

/-- Structural weight of a shape, used only to compute a sufficient
fuel bound for `from_str`. -/
def Shape.weight : Shape → Nat
  | .sBool => 1
  | .sInt _ => 1
  | .sText => 1
  | .sChar => 1
  | .sOption s => Shape.weight s + 1
  | .sList s => Shape.weight s + 1
  | .sRecord fields => Shape.weight fields + 1
  | .sFNil => 1
  | .sFCons _ s rest => Shape.weight s + Shape.weight rest + 1

/-- Deserialize a shape from a MuON string (`from_str` in `src/de.rs`,
with the serde derive layer modelled by `deserialize_shape`).  The fuel
bound exceeds the number of loop steps any decode of this input can
make. -/
def from_str (sh : Shape) (s : Str) : Except Error Value :=
  match deserialize_shape ((s.length + 2) * (sh.weight + 2) + 16) sh
      (MappingIter.new s) with
  | .ok (v, _) => .ok v
  | .error e => .error e

namespace ser

/-- Position of line output, from `src/ser.rs` (`enum LinePos`). -/
inductive LinePos where
  | start
  | afterValue
  deriving DecidableEq, Repr

/-- Type modifier, from `src/ser.rs` (`enum Modifier`). -/
inductive Modifier where
  | no
  | optional
  | list
  deriving DecidableEq, Repr

/-- Branch for the serializer stack, from `src/ser.rs`
(`struct Branch`). -/
structure Branch where
  key : Option Str
  n_field : Nat
  modifier : Modifier
  visited : Bool
  deriving DecidableEq, Repr

/-- Check if substitute is allowed (`Branch::is_substitute_allowed`). -/
def Branch.is_substitute_allowed (b : Branch) : Bool :=
  b.modifier = Modifier.no ∧ b.n_field = 1

/-- Serializer state, from `src/ser.rs` (`struct Serializer`).  The
writer is modelled by the text written so far (`output`).  The branch
stack grows at the head of the list (the head is `Vec::last`); the
source's bottom-up index `n` of `iter_mut().nth(n)` is translated in
`nth_branch`/`modify_branch`. -/
structure Serializer where
  n_indent : Nat
  output : Str
  stack : List Branch
  is_key : Bool
  indent : Nat
  line : LinePos
  separator : Separator
  deriving DecidableEq, Repr

/-- Create a new MuON serializer (`Serializer::new`): indents are
clamped to at least one space. -/
def Serializer.new (n_indent : Nat) (writer : Str) : Serializer :=
  { n_indent := n_indent.max 1, output := writer, stack := [],
    is_key := false, indent := 0, line := .start, separator := .normal }

/-- Append raw text to the writer. -/
def Serializer.write_raw (s : Serializer) (t : Str) : Serializer :=
  { s with output := s.output ++ t }

/-- Read the branch with bottom-up index `n` (`stack.iter().nth(n)`). -/
def Serializer.nth_branch (s : Serializer) (n : Nat) : Option Branch :=
  s.stack.get? (s.stack.length - 1 - n)

/-- Update the branch with bottom-up index `n`. -/
def Serializer.modify_branch (s : Serializer) (n : Nat)
    (f : Branch → Branch) : Serializer :=
  match s.stack.get? (s.stack.length - 1 - n) with
  | some branch => { s with stack := s.stack.set (s.stack.length - 1 - n) (f branch) }
  | none => s

/-- Push a new branch onto the stack (`Serializer::push_stack`). -/
def Serializer.push_stack (s : Serializer) : Serializer :=
  { s with stack :=
      { key := none, n_field := 0, modifier := .no, visited := false } ::
        s.stack }

/-- Set the modifier for the top branch (`Serializer::set_modifier`). -/
def Serializer.set_modifier (s : Serializer) (modifier : Modifier) :
    Serializer :=
  match s.stack with
  | branch :: rest => { s with stack := { branch with modifier := modifier } :: rest }
  | [] => s

/-- Check if the current define is a list (`Serializer::is_list`). -/
def Serializer.is_list (s : Serializer) : Bool :=
  match s.stack.head? with
  | some branch => branch.modifier = Modifier.list
  | none => false

/-- Check if a character is a homoglyph of colon
(`is_colon_homoglyph` in `src/ser.rs`). -/
def is_colon_homoglyph (c : Char) : Bool :=
  c = 'ː' ∨ c = '˸' ∨ c = '܃' ∨ c = '܄' ∨
  c = '܈' ∨ c = '܉' ∨ c = '፥' ∨ c = '፦' ∨
  c = '᠄' ∨ c = '≔' ∨ c = '≕' ∨ c = '⦂' ∨
  c = '⩴' ∨ c = '⫶' ∨ c = '꞉' ∨ c = '︓' ∨
  c = '﹕' ∨ c = '：' ∨ c = (Char.ofNat 0xE003A)

/-- Rust `char::is_whitespace`: the Unicode White_Space set. -/
def rust_is_whitespace (c : Char) : Bool :=
  c = '\u0009' ∨ c = '\u000A' ∨ c = '\u000B' ∨ c = '\u000C' ∨
  c = '\u000D' ∨ c = ' ' ∨ c = '\u0085' ∨ c = ' ' ∨
  c = ' ' ∨ (0x2000 ≤ c.toNat ∧ c.toNat ≤ 0x200A) ∨
  c = ' ' ∨ c = ' ' ∨ c = ' ' ∨ c = ' ' ∨
  c = '　'

/-- Rust `char::is_control`: the Unicode Cc category. -/
def rust_is_control (c : Char) : Bool :=
  c.toNat ≤ 0x1F ∨ (0x7F ≤ c.toNat ∧ c.toNat ≤ 0x9F)

/-- Check if a string starts with whitespace (`starts_with_whitespace`
in `src/ser.rs`). -/
def starts_with_whitespace (k : Str) : Bool :=
  match k.head? with
  | some c => rust_is_whitespace c
  | none => false

/-- Check if a string contains any problematic characters
(`contains_problematic_characters` in `src/ser.rs`). -/
def contains_problematic_characters (k : Str) : Bool :=
  k.any (fun c => rust_is_control c ∨ is_colon_homoglyph c)

/-- Check if quoting is required for a key (`is_quoting_required`). -/
def is_quoting_required (k : Str) : Bool :=
  (match k.head? with
   | some c => (decide (c = ' ') || decide (c = '"') || decide (c = '#'))
   | none => false) || k.contains ':'

/-- Check if quoting is suggested for a key (`is_quoting_suggested`). -/
def is_quoting_suggested (k : Str) : Bool :=
  starts_with_whitespace k ∨ contains_problematic_characters k

/-- Create a quoted key (`quoted_key` in `src/ser.rs`): wrap in quotes
with internal quotes doubled when quoting is required or suggested. -/
def quoted_key (k : Str) : Str :=
  if is_quoting_required k ∨ is_quoting_suggested k then
    '"' :: (k.flatMap (fun c => if c = '"' then ['"', '"'] else [c])) ++ ['"']
  else k

/-- Set the current key (`Serializer::set_key`). -/
def Serializer.set_key (s : Serializer) (key : Str) : Serializer :=
  match s.stack with
  | branch :: rest =>
    let branch := { branch with key := some (quoted_key key), n_field := branch.n_field + 1 }
    { s with stack := branch :: rest }
  | [] => s

/-- Set the key to blank for repeated keys (`Serializer::set_key_blank`):
the key is replaced by spaces of the same character count. -/
def Serializer.set_key_blank (s : Serializer) : Serializer :=
  match s.stack with
  | branch :: rest =>
    match branch.key with
    | some key =>
      { s with stack :=
          { branch with key := some (List.replicate key.length ' ') } :: rest }
    | none => s
  | [] => s

/-- Get the current nesting depth (`Serializer::nesting`). -/
def Serializer.nesting (s : Serializer) : Nat :=
  s.stack.length

/-- Set the output indent count (`Serializer::set_indent`). -/
def Serializer.set_indent (s : Serializer) : Serializer :=
  { s with indent := s.nesting }

/-- Check if the line should be merged (`Serializer::is_merge_line`). -/
def Serializer.is_merge_line (s : Serializer) : Bool :=
  match s.line, s.separator with
  | .afterValue, .normal => true
  | _, _ => false

/-- Check if substitute is allowed for the current field
(`Serializer::is_substitute_allowed`). -/
def Serializer.is_substitute_allowed (s : Serializer) : Bool :=
  match s.stack.head? with
  | some branch => branch.is_substitute_allowed
  | none => true

/-- Mark a branch as visited (`Serializer::visit_branch`). -/
def Serializer.visit_branch (s : Serializer) (n : Nat) : Serializer :=
  s.modify_branch n (fun branch => { branch with visited := true })

/-- Write a linefeed if necessary (`Serializer::write_linefeed`). -/
def Serializer.write_linefeed (s : Serializer) : Serializer :=
  match s.line with
  | .afterValue => { s.write_raw (str "\n") with line := .start }
  | .start => s

/-- Write an indentation (`Serializer::write_indent`): `n * n_indent`
spaces. -/
def Serializer.write_indent (s : Serializer) (n : Nat) : Serializer :=
  s.write_raw (List.replicate (n * s.n_indent) ' ')

/-- Write a key (`Serializer::write_key`): a linefeed if pending, the
indentation for level `n`, the level's key if set, and mark the level
visited. -/
def Serializer.write_key (s : Serializer) (n : Nat) : Serializer :=
  let s := s.write_linefeed
  let s := s.write_indent n
  match s.nth_branch n with
  | some branch =>
    let s := match branch.key with
             | some key => s.write_raw key
             | none => s
    s.visit_branch n
  | none => s

/-- Write the key for an unvisited branch
(`Serializer::write_unvisited_key`). -/
def Serializer.write_unvisited_key (s : Serializer) : Serializer :=
  let indent := s.nesting
  if indent > 0 then (s.write_key (indent - 1)).write_raw (str ":\n")
  else s

/-- Pop a branch from the stack (`Serializer::pop_stack`): an unvisited
branch still gets its key line written. -/
def Serializer.pop_stack (s : Serializer) : Serializer :=
  match s.stack with
  | branch :: rest =>
    let s := { s with stack := rest }
    let s := if ¬ branch.visited then s.write_unvisited_key else s
    (s.set_indent).write_linefeed
  | [] => s

/-- Loop of `Serializer::write_keys` over levels `n0..n1` (the first
argument is the remaining level count `n1 - n`): write each level's
key; all but the last get `:` and a linefeed, except that the
last-but-one may collapse by substitution when allowed (the source's
`match n1 - n` with arms `1`, `2 if substitute allowed`, and the
rest). -/
def write_keys_go : Nat → Nat → Serializer → Serializer
  | 0, _, s => s
  | rem+1, n, s =>
    let s := s.write_key n
    if rem = 0 then write_keys_go rem (n + 1) s
    else if rem = 1 ∧ s.is_substitute_allowed then s.visit_branch (n + 1)
    else write_keys_go rem (n + 1) (s.write_raw (str ":\n"))

/-- Write all necessary keys (`Serializer::write_keys`). -/
def Serializer.write_keys (s : Serializer) : Serializer :=
  let n0 := s.indent.max 1 - 1
  let n1 := s.nesting
  let s := write_keys_go (n1 - n0) n0 s
  let s := s.set_indent
  let s := s.set_key_blank
  s.write_raw s.separator.as_str

/-- Serialize an item (`Serializer::ser_item`): merge onto the current
line with a space, or write the keys, then the item's text. -/
def Serializer.ser_item (s : Serializer) (item : Str) :
    Except Error Serializer :=
  if s.is_key then .error .invalidKey
  else
    let s := if s.is_merge_line then s.write_raw (str " ")
             else s.write_keys
    .ok { s.write_raw item with line := .afterValue }

/-- Loop of `Serializer::write_text` over the `split('\n')` chunks of
the value. -/
def write_text_go : Serializer → List Str → Except Error Serializer
  | s, [] => .ok s
  | s, val :: rest => do
    let s ← s.ser_item val
    let s := match s.separator with
             | .normal => s
             | _ => s.write_linefeed
    write_text_go { s with separator := .textAppend } rest

/-- Write a text item (`Serializer::write_text`): a list element
containing a space switches to the `:=` separator; linefeeds in the
value become `:>` continuations; the separator is reset afterwards. -/
def Serializer.write_text (s : Serializer) (v : Str) :
    Except Error Serializer := do
  let s := if s.is_list ∧ v.contains ' ' then { s with separator := .textValue }
           else s
  let s ← write_text_go s (v.splitOn '\n')
  .ok { s with separator := .normal }

/-- Rendering of a bool item (`impl Item for bool`). -/
def bool_item (b : Bool) : Str :=
  if b then str "true" else str "false"

/-- Rendering of an integer item (`impl_item!` via `Display`). -/
def int_item (n : Int) : Str :=
  (ToString.toString n).data

/-- The string case of `Serializer::serialize_str`: a key is recorded
on the top branch, a value goes through `write_text`. -/
def serialize_str (s : Serializer) (v : Str) : Except Error Serializer :=
  if s.is_key then .ok (s.set_key v).write_linefeed
  else s.write_text v

/-- Serialize a key (`Serializer::ser_key`): the derive layer passes
the field-name string with the key flag set. -/
def ser_key (s : Serializer) (k : Str) : Except Error Serializer := do
  let s ← serialize_str { s with is_key := true } k
  .ok { s with is_key := false }

/-- Drive the serializer, mirroring the dispatch of `ser::Serializer`
in `src/ser.rs`: scalars through `ser_item`, text through
`serialize_str`, `serialize_none` writes nothing, `serialize_some` sets
the `Optional` modifier, `serialize_seq` sets the `List` modifier and
serializes each element (`SerializeSeq::serialize_element`), and
`serialize_struct` pushes a branch, writes every field through
`ser_key`/`ser_value` (`SerializeStruct::serialize_field`), and pops it
at `end`.  The `vLNil`/`vLCons` and `vFNil`/`vFCons` arms are the
element and field loops of the derive layer; a stray chain cell outside
its wrapper is not a serde value (`UnsupportedType`). -/
def serialize_value : Nat → Value → Serializer → Except Error Serializer
  | 0, _, _ => .error .fuel
  | fuel+1, v, s =>
    match v with
    | .vBool b => s.ser_item (bool_item b)
    | .vInt n => s.ser_item (int_item n)
    | .vChar c => s.ser_item [c]
    | .vText t => serialize_str s t
    | .vNone => .ok s
    | .vSome w => serialize_value fuel w (s.set_modifier .optional)
    | .vList vs => serialize_value fuel vs (s.set_modifier .list)
    | .vLNil => .ok s
    | .vLCons v rest => do
      let s ← serialize_value fuel v s
      serialize_value fuel rest s
    | .vRecord fs => do
      let s ← serialize_value fuel fs s.push_stack
      .ok s.pop_stack
    | .vFNil => .ok s
    | .vFCons k v rest => do
      let s ← ser_key s k
      let s ← serialize_value fuel v s
      serialize_value fuel rest s

end ser

/-- Structural weight of a value, used only to compute a sufficient
fuel bound for the serializer driver. -/
def Value.weight : Value → Nat
  | .vBool _ => 1
  | .vInt _ => 1
  | .vText _ => 1
  | .vChar _ => 1
  | .vNone => 1
  | .vSome v => Value.weight v + 1
  | .vList vs => Value.weight vs + 1
  | .vLNil => 1
  | .vLCons v rest => Value.weight v + Value.weight rest + 1
  | .vRecord fields => Value.weight fields + 1
  | .vFNil => 1
  | .vFCons _ v rest => Value.weight v + Value.weight rest + 1

/-- Serialize a value to a string in MuON format (`to_string` in
`src/ser.rs`): a serializer with a 2-space indent over an empty
writer.  The fuel bound exceeds the number of steps the driver can
make on this value. -/
def to_string (value : Value) : Except Error Str := do
  let s ← ser.serialize_value (value.weight + 1) value (ser.Serializer.new 2 [])
  .ok s.output

/-- Serialize a value to a byte vector in MuON format (`to_vec` in
`src/ser.rs`): the same serializer with a 2-space indent; the returned
`Vec<u8>` holds the UTF-8 bytes of the text modelled here. -/
def to_vec (value : Value) : Except Error Str := do
  let s ← ser.serialize_value (value.weight + 1) value (ser.Serializer.new 2 [])
  .ok s.output

/-- Serialize a value to a writer in MuON format (`to_writer` in
`src/ser.rs`): a serializer with a 2-space indent appending to the
given writer. -/
def to_writer (writer : Str) (value : Value) : Except Error Str := do
  let s ← ser.serialize_value (value.weight + 1) value
    (ser.Serializer.new 2 writer)
  .ok s.output

end Muon

open Muon

/-- C1: the round-trip property `decode(encode(v)) == v` fails on the
code for a representable value: the record with one `char` field
holding the newline character.  `to_string` renders a char scalar by
writing the raw character (`impl Item for char` in `src/ser.rs`), so
the value lands as a literal linefeed inside the line, producing
`"c: \n\n"`; `from_str` then rejects that text with `ExpectedChar`.
The deserializer itself supports a newline char written as an empty
value plus one empty `:>` continuation (`Deserializer::parse_char` in
`src/de.rs`, third conjunct), but the serializer never produces that
encoding, so the claim states the intent and the serializer's char
rendering is the slip. -/
theorem claim_c1_roundtrip_newline_char :
    to_string (record_value [(str "c", Value.vChar '\n')]) = .ok (str "c: \n\n") ∧
    from_str (record_shape [(str "c", Shape.sChar)]) (str "c: \n\n") =
      .error (.failedParse .expectedChar) ∧
    from_str (record_shape [(str "c", Shape.sChar)]) (str "c:\n :>\n") =
      .ok (record_value [(str "c", Value.vChar '\n')]) :=
  ⟨rfl, rfl, rfl⟩

/-- C2 counterexample: a line that ends immediately after the key's
colon does not fail with `MissingSeparator` as the claim states; the
tokenizer completes it with a virtual trailing space and yields a
definition with the `Normal` separator and an empty value (as the
crate's own `def_iter` test expects for `c:`). -/
theorem claim_c2_counterexample :
    Line.new (str "c:") = .ok (.definition (str "c") .normal (str "")) ∧
    Line.new (str "c:") ≠ .error .missingSeparator := by
  refine ⟨rfl, fun h => ?_⟩
  rw [show Line.new (str "c:") = .ok (.definition (str "c") .normal (str ""))
    from rfl] at h
  exact Except.noConfusion h

/-- C2 (amended): once the key's colon is found (state `KeyColon`), the
immediately following character selects the separator — a space yields
`Normal`, `>` yields `TextAppend`, `=` yields `TextValue`, and any
other character fails the line with `InvalidSeparator`.  A line that
ends immediately after the colon does not fail with
`MissingSeparator`: the scan loop's trailing virtual space turns the
`KeyColon` state into a `Normal` definition with an empty value
(`Line::new`'s final `parse_char(line.len(), ' ')`). -/
theorem claim_c2_separator_selection :
    (∀ off o, (State.keyColon off).parse_char o ' ' = .defDone off .normal) ∧
    (∀ off o, (State.keyColon off).parse_char o '>' = .defDone off .textAppend) ∧
    (∀ off o, (State.keyColon off).parse_char o '=' = .defDone off .textValue) ∧
    (∀ off o c, c ≠ ' ' → c ≠ '>' → c ≠ '=' →
      (State.keyColon off).parse_char o c = .error .invalidSeparator) ∧
    (∀ line off i, Line.new_go line (.keyColon off) i [] =
      (State.defDone off .normal).to_line line) ∧
    Line.new (str "c:") = .ok (.definition (str "c") .normal (str "")) := by
  refine ⟨fun off o => rfl, fun off o => rfl, fun off o => rfl, ?_,
    fun line off i => rfl, rfl⟩
  intro off o c h1 h2 h3
  simp [State.parse_char, h1, h2, h3]

/-- C2 witness: the separator-selection theorem applied at a concrete
non-separator character. -/
theorem claim_c2_separator_selection_witness :
    (State.keyColon 1).parse_char 2 'x' = .error .invalidSeparator :=
  claim_c2_separator_selection.2.2.2.1 1 2 'x' (by decide) (by decide)
    (by decide)

/-- C3: substitution — treating the non-empty inline value on a
record's own key line as the value of the record's first declared
field — happens only at the moment a record branch is pushed:
`MappingIter::check_substitute` fires on the freshly pushed branch,
consuming the pending define and re-issuing it one level deeper under
the first declared field's name while recording that name as the
branch's substitute (first conjunct).  While that recorded substitute
is still the current key, reading an `Option` field fails with
`InvalidSubstitute` (`deserialize_option`, second conjunct), and
reading a sequence field fails with `InvalidSubstitute`
(`deserialize_seq`, third conjunct).  The concrete conjuncts run the
crate's own examples end to end: a substituted record whose first
field is an `Option` fails, a substituted record whose first field is
a list fails, and a substituted record whose first field is a plain
scalar decodes successfully. -/
theorem claim_c3_substitute_first_field :
    (∀ (m : MappingIter) (branch : Branch) (rest : List Branch)
       (key : Str) (d : Define),
      m.stack = branch :: rest → branch.first_field = some key →
      m.define = some d → d.value ≠ [] →
      m.check_substitute =
        { m with
          stack := { branch with substitute := some key } :: rest,
          define := some (Define.new rest.length key d.separator d.value) }) ∧
    (∀ (fuel : Nat) (t : Shape) (m : MappingIter) (branch : Branch),
      m.stack.head? = some branch →
      branch.state ≠ BranchState.cleanup → branch.is_substitute = true →
      deserialize_go (fuel + 1) (.shape (.sOption t)) m =
        .error (.failedParse .invalidSubstitute)) ∧
    (∀ (fuel : Nat) (t : Shape) (m : MappingIter) (branch : Branch),
      m.stack.head? = some branch → branch.is_substitute = true →
      deserialize_go (fuel + 1) (.shape (.sList t)) m =
        .error (.failedParse .invalidSubstitute)) ∧
    from_str (record_shape [(str "thing", .sList (record_shape
        [(str "name", .sOption .sText), (str "id", .sInt IntTy.u32)]))])
      (str "thing: X\n  id: 1\nthing:\n  id: 2\n") =
      .error (.failedParse .invalidSubstitute) ∧
    from_str (record_shape [(str "chan", .sList (record_shape
        [(str "strings", .sList .sText)]))])
      (str "chan: first second\n") =
      .error (.failedParse .invalidSubstitute) ∧
    from_str (record_shape [(str "name", record_shape
        [(str "int", .sInt IntTy.u32)]), (str "other", .sInt IntTy.u32)])
      (str "name: 999\nother: 15\n") =
      .ok (record_value [(str "name", record_value [(str "int", .vInt 999)]),
        (str "other", .vInt 15)]) := by
  refine ⟨?_, ?_, ?_, rfl, rfl, rfl⟩
  · intro m branch rest key d hst hff hdef hval
    simp [MappingIter.check_substitute, hst, hff, hdef, hval]
  · intro fuel t m branch hhd hstate hsub
    simp [deserialize_go, hhd, hstate, hsub]
  · intro fuel t m branch hhd hsub
    cases hstk : m.stack with
    | nil => rw [hstk] at hhd; exact Option.noConfusion hhd
    | cons b rest =>
      rw [hstk] at hhd
      injection hhd with hb
      subst hb
      have hsub2 : ({ b with list := true } : Branch).is_substitute = true :=
        hsub
      simp [deserialize_go, MappingIter.set_list, hstk, hsub2]

/-- C3 witness: the substitution theorem applied at concrete states — a
freshly pushed two-field branch with a pending non-empty define records
the substitute and re-issues the define under the first field's name,
and a mapping state whose current key is the recorded substitute fails
with `InvalidSubstitute` for both an `Option` shape and a list shape. -/
theorem claim_c3_substitute_first_field_witness :
    MappingIter.check_substitute
      { defs := DefIter.new [],
        define := some (Define.new 0 (str "thing") .normal (str "X")),
        stack := [Branch.with_fields [str "name", str "id"]] } =
      { defs := DefIter.new [],
        define := some (Define.new 0 (str "name") .normal (str "X")),
        stack := [{ Branch.with_fields [str "name", str "id"] with
                    substitute := some (str "name") }] } ∧
    deserialize_go 1 (.shape (.sOption .sText))
      { defs := DefIter.new [], define := none,
        stack := [{ fields := [str "f"], visited := [false],
                    state := .visit, key := some (str "f"), list := false,
                    substitute := some (str "f") }] } =
      .error (.failedParse .invalidSubstitute) ∧
    deserialize_go 1 (.shape (.sList .sText))
      { defs := DefIter.new [], define := none,
        stack := [{ fields := [str "f"], visited := [false],
                    state := .visit, key := some (str "f"), list := false,
                    substitute := some (str "f") }] } =
      .error (.failedParse .invalidSubstitute) :=
  ⟨claim_c3_substitute_first_field.1
      { defs := DefIter.new [],
        define := some (Define.new 0 (str "thing") .normal (str "X")),
        stack := [Branch.with_fields [str "name", str "id"]] }
      (Branch.with_fields [str "name", str "id"]) [] (str "name")
      (Define.new 0 (str "thing") .normal (str "X")) rfl rfl rfl
      (by decide),
   claim_c3_substitute_first_field.2.1 0 .sText
      { defs := DefIter.new [], define := none,
        stack := [{ fields := [str "f"], visited := [false],
                    state := .visit, key := some (str "f"), list := false,
                    substitute := some (str "f") }] }
      { fields := [str "f"], visited := [false],
        state := .visit, key := some (str "f"), list := false,
        substitute := some (str "f") } rfl (by decide) rfl,
   claim_c3_substitute_first_field.2.2.1 0 .sText
      { defs := DefIter.new [], define := none,
        stack := [{ fields := [str "f"], visited := [false],
                    state := .visit, key := some (str "f"), list := false,
                    substitute := some (str "f") }] }
      { fields := [str "f"], visited := [false],
        state := .visit, key := some (str "f"), list := false,
        substitute := some (str "f") } rfl rfl⟩

/-- C4: the resolver learns the indent unit from the first definition
key with a nonzero leading-space count: a count of 2, 3 or 4 becomes
the unit, any other count fails with `InvalidIndent`
(`DefIter::set_indent_spaces`); once learned the unit never changes;
every later non-continuation key's leading-space count must be an exact
multiple of the unit, the quotient becoming its depth, and a nonzero
remainder fails with `InvalidIndent` (`DefIter::indent_count` inside
`make_define`).  The final conjuncts run the spec's example: a document
that establishes a 2-space unit and then presents a 3-space-indented
definition fails with `InvalidIndent`. -/
theorem claim_c4_indent_unit :
    (∀ (it : DefIter) (key : Str) (sp : Nat), it.indent_spaces = none → key_indent key = some sp →
      ((2 ≤ sp ∧ sp ≤ 4) →
        it.set_indent_spaces key = .ok { it with indent_spaces := some sp }) ∧
      (¬ (2 ≤ sp ∧ sp ≤ 4) →
        it.set_indent_spaces key = .error .invalidIndent)) ∧
    (∀ (it : DefIter) (key : Str) (u : Nat), it.indent_spaces = some u →
      it.set_indent_spaces key = .ok it) ∧
    (∀ (it : DefIter) (key : Str) (separator : Separator) (value : Str) (u : Nat), it.indent_spaces = some u →
      key.all (· = ' ') = false →
      (((key.takeWhile (· = ' ')).length % u = 0 →
        it.make_define key separator value =
          .ok (Define.new ((key.takeWhile (· = ' ')).length / u)
            (key.dropWhile (· = ' ')) separator value)) ∧
       ((key.takeWhile (· = ' ')).length % u ≠ 0 →
        it.make_define key separator value = .error .invalidIndent))) ∧
    ((DefIter.new (str "a:\n  b: 1\n   c: 2\n")).next.1.next.1.indent_spaces
        = some 2 ∧
     (DefIter.new (str "a:\n  b: 1\n   c: 2\n")).next.1.next.1.next.2 = none ∧
     (DefIter.new (str "a:\n  b: 1\n   c: 2\n")).next.1.next.1.next.1.error
        = some .invalidIndent) := by
  refine ⟨?_, ?_, ?_, rfl, rfl, rfl⟩
  · intro it key sp h1 h2
    constructor <;> intro h3 <;> simp [DefIter.set_indent_spaces, h1, h2, h3]
  · intro it key u h
    simp [DefIter.set_indent_spaces, h]
  · intro it key separator value u h1 h2
    constructor <;> intro h3 <;>
      simp [DefIter.make_define, DefIter.indent_count, h1, h2, h3]

/-- C4 witness: the indent-learning theorem applied at concrete
states — a fresh resolver learning a 2-space unit from a key with two
leading spaces, and a resolver with a learned 2-space unit rejecting a
key with three leading spaces. -/
theorem claim_c4_indent_unit_witness :
    (DefIter.new (str "")).set_indent_spaces (str "  b") =
      .ok { DefIter.new (str "") with indent_spaces := some 2 } ∧
    { DefIter.new (str "") with indent_spaces := some 2 }.make_define
      (str "   c") .normal (str "2") = .error .invalidIndent :=
  ⟨(claim_c4_indent_unit.1 (DefIter.new (str "")) (str "  b") 2 rfl rfl).1
      (by decide),
   (claim_c4_indent_unit.2.2.1 { DefIter.new (str "") with
        indent_spaces := some 2 } (str "   c") .normal (str "2") 2 rfl
      (by decide)).2 (by decide)⟩

/-- C5: a definition whose raw key is entirely spaces is a continuation
row.  The rendered key width is `depth * indent_unit` plus the current
key's character length (`DefIter::key_len`); when the all-space key has
exactly that length and a current definition exists, `make_define`
re-emits the current definition's depth and key with the new separator
and value; on a width mismatch, or when no current definition exists,
it fails with `InvalidIndent`.  The final conjuncts run the crate's own
example: `c:` then ` : append` continues `c`, while a two-space blank
key is an `InvalidIndent`. -/
theorem claim_c5_continuation_rows :
    (∀ (it : DefIter) (d : Define) (u : Nat), it.define = some d → it.indent_spaces = some u →
      it.key_len = d.indent * u + d.key.length) ∧
    (∀ (it : DefIter) (key : Str) (separator : Separator) (value : Str) (d : Define), key.all (· = ' ') = true →
      it.define = some d → key.length = it.key_len →
      it.make_define key separator value =
        .ok (Define.new d.indent d.key separator value)) ∧
    (∀ (it : DefIter) (key : Str) (separator : Separator) (value : Str), key.all (· = ' ') = true →
      key.length ≠ it.key_len →
      it.make_define key separator value = .error .invalidIndent) ∧
    (∀ (it : DefIter) (key : Str) (separator : Separator) (value : Str), key.all (· = ' ') = true →
      it.define = none →
      it.make_define key separator value = .error .invalidIndent) ∧
    ((DefIter.new (str "c:\n : append\n  : bad\n")).next.1.next.2 =
      some (Define.new 0 (str "c") .normal (str "append")) ∧
     (DefIter.new (str "c:\n : append\n  : bad\n")).next.1.next.1.next.1.error
       = some .invalidIndent) := by
  refine ⟨?_, ?_, ?_, ?_, rfl, rfl⟩
  · intro it d u h1 h2
    simp [DefIter.key_len, h1, h2]
  · intro it key separator value d h1 h2 h3
    simp [DefIter.make_define, h1, h2, h3]
  · intro it key separator value h1 h2
    simp [DefIter.make_define, h1, h2]
  · intro it key separator value h1 h2
    by_cases h3 : key.length = it.key_len <;>
      simp [DefIter.make_define, h1, h2, h3]

/-- C5 witness: the continuation-row theorem applied at a concrete
resolver state holding the definition `c` at depth 0: a one-space blank
key of the rendered width 1 re-emits `c`'s depth and key with the new
separator and value. -/
theorem claim_c5_continuation_rows_witness :
    { DefIter.new (str "") with
        define := some (Define.new 0 (str "c") .normal (str "")) }.make_define
      (str " ") .textAppend (str "x") =
      .ok (Define.new 0 (str "c") .textAppend (str "x")) :=
  claim_c5_continuation_rows.2.1 _ (str " ") .textAppend (str "x")
    (Define.new 0 (str "c") .normal (str "")) (by decide) rfl (by decide)

/-- C6: with the `Normal` separator each value line of a list field is
split on spaces into successive elements, so the two spec inputs decode
to the boolean lists `[false, true, true, false]` and
`[true, true, false, false]` (both of four elements); with the
`TextAppend` or `TextValue` separators `MappingIter::next_list`
consumes the pending definition whole, so each physical line
contributes exactly one element, while for `Normal` it splits the
pending definition at its first space (`Define::split_list`), a value
without a space staying a single element. -/
theorem claim_c6_list_split :
    from_str (record_shape [(str "flags", Shape.sList .sBool)])
      (str "flags: false true true false\n") =
      .ok (record_value [(str "flags",
        list_value [.vBool false, .vBool true, .vBool true, .vBool false])]) ∧
    from_str (record_shape [(str "flags", Shape.sList .sBool)])
      (str "flags: true true\nflags: false false\n") =
      .ok (record_value [(str "flags",
        list_value [.vBool true, .vBool true, .vBool false, .vBool false])]) ∧
    (∀ (m : MappingIter) (d : Define), m.define = some d → d.separator ≠ .normal →
      m.next_list = ({ m with define := none }, some d)) ∧
    (∀ (m : MappingIter) (d : Define), m.define = some d → d.separator = .normal →
      m.next_list = ({ m with define := d.split_list.2 }, some d.split_list.1)) ∧
    (∀ (d : Define), d.value.contains ' ' = false → d.split_list = (d, none)) := by
  refine ⟨rfl, rfl, ?_, ?_, ?_⟩
  · intro m d h1 h2
    cases hs : d.separator <;> simp [MappingIter.next_list, h1, hs] <;>
      simp [hs] at h2
  · intro m d h1 h2
    simp [MappingIter.next_list, h1, h2]
  · intro d h
    have hd : d.value.dropWhile (fun x => !decide (x = ' ')) = [] := by
      rw [List.dropWhile_eq_nil_iff]
      intro x hx
      simp only [Bool.not_eq_true', decide_eq_false_iff_not]
      intro he
      subst he
      rw [List.contains_eq_any_beq] at h
      have h2 := List.any_eq_false.mp h ' ' hx
      simp at h2
    simp [Define.split_list, hd]

/-- C6 witness: the text-separator conjunct applied at a concrete
mapping state holding a pending `:>` definition whose value contains a
space — it is consumed whole as one element. -/
theorem claim_c6_list_split_witness :
    { MappingIter.new (str "") with
        define := some (Define.new 0 (str "a") .textAppend (str "x y")) }.next_list
      = ({ MappingIter.new (str "") with define := none },
         some (Define.new 0 (str "a") .textAppend (str "x y"))) :=
  claim_c6_list_split.2.2.1 _ (Define.new 0 (str "a") .textAppend (str "x y"))
    rfl (by decide)

/-- Reduction of a successful bind in the `Except` monad. -/
theorem except_ok_bind {ε α β : Type} (a : α) (f : α → Except ε β) :
    (Except.ok a >>= f) = f a := rfl

/-- Reduction of a failed bind in the `Except` monad. -/
theorem except_error_bind {ε α β : Type} (e : ε) (f : α → Except ε β) :
    (Except.error e >>= f) = Except.error e := rfl

/-- Branch constructor shorthand for concrete serializer states. -/
def sbranch (key : Option Muon.Str) (n : Nat) (m : Muon.ser.Modifier)
    (v : Bool) : Muon.ser.Branch :=
  { key := key, n_field := n, modifier := m, visited := v }

/-- Writing raw text does not change the indent unit. -/
theorem write_raw_n_indent (s : ser.Serializer) (t : Str) :
    (s.write_raw t).n_indent = s.n_indent := rfl

/-- Writing a pending linefeed does not change the indent unit. -/
theorem write_linefeed_n_indent (s : ser.Serializer) :
    s.write_linefeed.n_indent = s.n_indent := by
  cases hl : s.line <;> simp [ser.Serializer.write_linefeed, hl,
    ser.Serializer.write_raw]

/-- Writing an indentation does not change the indent unit. -/
theorem write_indent_n_indent (s : ser.Serializer) (n : Nat) :
    (s.write_indent n).n_indent = s.n_indent := rfl

/-- Marking a branch visited does not change the indent unit. -/
theorem visit_branch_n_indent (s : ser.Serializer) (n : Nat) :
    (s.visit_branch n).n_indent = s.n_indent := by
  unfold ser.Serializer.visit_branch ser.Serializer.modify_branch
  split <;> rfl

/-- Writing one key does not change the indent unit. -/
theorem write_key_n_indent (s : ser.Serializer) (n : Nat) :
    (s.write_key n).n_indent = s.n_indent := by
  unfold ser.Serializer.write_key
  dsimp only
  generalize hx : s.write_linefeed.write_indent n = x
  have hxn : x.n_indent = s.n_indent := by
    rw [← hx, write_indent_n_indent, write_linefeed_n_indent]
  cases hn : x.nth_branch n with
  | none => simp [hn, hxn]
  | some branch =>
    cases hk : branch.key <;>
      simp [hn, hk, visit_branch_n_indent, write_raw_n_indent, hxn]

/-- The key-writing loop does not change the indent unit. -/
theorem write_keys_go_n_indent (rem n : Nat) (s : ser.Serializer) :
    (ser.write_keys_go rem n s).n_indent = s.n_indent := by
  induction rem generalizing n s with
  | zero => rfl
  | succ r ih =>
    unfold ser.write_keys_go
    dsimp only
    split
    · rw [ih, write_key_n_indent]
    · split
      · rw [visit_branch_n_indent, write_key_n_indent]
      · rw [ih, write_raw_n_indent, write_key_n_indent]

/-- Blanking the current key does not change the indent unit. -/
theorem set_key_blank_n_indent (s : ser.Serializer) :
    s.set_key_blank.n_indent = s.n_indent := by
  unfold ser.Serializer.set_key_blank
  split
  · split <;> rfl
  · rfl

/-- Writing all keys does not change the indent unit. -/
theorem write_keys_n_indent (s : ser.Serializer) :
    s.write_keys.n_indent = s.n_indent := by
  unfold ser.Serializer.write_keys
  rw [write_raw_n_indent, set_key_blank_n_indent]
  show (ser.write_keys_go _ _ _).n_indent = _
  rw [write_keys_go_n_indent]

/-- Serializing one item does not change the indent unit. -/
theorem ser_item_n_indent (s : ser.Serializer) (t : Str)
    (s' : ser.Serializer) (h : s.ser_item t = .ok s') :
    s'.n_indent = s.n_indent := by
  unfold ser.Serializer.ser_item at h
  split at h
  · exact Except.noConfusion h
  · split at h <;> simp only [Except.ok.injEq] at h <;> rw [← h]
    · simp [write_raw_n_indent]
    · simp [write_raw_n_indent, write_keys_n_indent]

/-- The text-chunk loop does not change the indent unit. -/
theorem write_text_go_n_indent (chunks : List Str) (s s' : ser.Serializer)
    (h : ser.write_text_go s chunks = .ok s') : s'.n_indent = s.n_indent := by
  induction chunks generalizing s with
  | nil =>
    simp only [ser.write_text_go, Except.ok.injEq] at h
    rw [← h]
  | cons val rest ih =>
    simp only [ser.write_text_go] at h
    rcases hi : s.ser_item val with e | s1 <;> rw [hi] at h
    · exact Except.noConfusion h
    · simp only [except_ok_bind] at h
      have h1 := ser_item_n_indent s val s1 hi
      split at h <;> rw [ih _ h] <;>
        simp [write_linefeed_n_indent, h1]

/-- Helper for `write_text_n_indent`: the tail of `write_text` (the
chunk loop followed by the separator reset) preserves the indent
unit of the state it starts from. -/
theorem write_text_tail_n_indent (s0 : ser.Serializer) (chunks : List Str)
    (s' : ser.Serializer)
    (h : (do
        let s ← ser.write_text_go s0 chunks
        Except.ok { s with separator := Separator.normal }) = .ok s') :
    s'.n_indent = s0.n_indent := by
  rcases hg : ser.write_text_go s0 chunks with e | s1 <;> rw [hg] at h
  · exact Except.noConfusion h
  · simp only [except_ok_bind, Except.ok.injEq] at h
    rw [← h]
    exact write_text_go_n_indent chunks s0 s1 hg

/-- Writing a text value does not change the indent unit. -/
theorem write_text_n_indent (s : ser.Serializer) (v : Str)
    (s' : ser.Serializer) (h : s.write_text v = .ok s') :
    s'.n_indent = s.n_indent := by
  unfold ser.Serializer.write_text at h
  dsimp only at h
  have h2 := write_text_tail_n_indent _ _ _ h
  split at h2 <;> simp_all

/-- The string dispatch does not change the indent unit. -/
theorem serialize_str_n_indent (s : ser.Serializer) (v : Str)
    (s' : ser.Serializer) (h : ser.serialize_str s v = .ok s') :
    s'.n_indent = s.n_indent := by
  unfold ser.serialize_str at h
  split at h
  · simp only [Except.ok.injEq] at h
    rw [← h, write_linefeed_n_indent]
    unfold ser.Serializer.set_key
    split <;> rfl
  · exact write_text_n_indent s v s' h

/-- Serializing a field key does not change the indent unit. -/
theorem ser_key_n_indent (s : ser.Serializer) (k : Str)
    (s' : ser.Serializer) (h : ser.ser_key s k = .ok s') :
    s'.n_indent = s.n_indent := by
  unfold ser.ser_key at h
  rcases hs : ser.serialize_str { s with is_key := true } k with e | s1 <;>
    rw [hs] at h
  · exact Except.noConfusion h
  · simp only [except_ok_bind, Except.ok.injEq] at h
    rw [← h]
    exact serialize_str_n_indent { s with is_key := true } k s1 hs

/-- Writing the key of an unvisited branch does not change the indent
unit. -/
theorem write_unvisited_key_n_indent (s : ser.Serializer) :
    s.write_unvisited_key.n_indent = s.n_indent := by
  unfold ser.Serializer.write_unvisited_key
  dsimp only
  split
  · rw [write_raw_n_indent, write_key_n_indent]
  · rfl

/-- Setting the output indent count does not change the indent unit. -/
theorem set_indent_n_indent (s : ser.Serializer) :
    s.set_indent.n_indent = s.n_indent := rfl

/-- Popping a branch does not change the indent unit. -/
theorem pop_stack_n_indent (s : ser.Serializer) :
    s.pop_stack.n_indent = s.n_indent := by
  unfold ser.Serializer.pop_stack
  split
  · dsimp only
    rw [write_linefeed_n_indent, set_indent_n_indent]
    split
    · rw [write_unvisited_key_n_indent]
    · rfl
  · rfl

/-- The serializer driver never changes the indent unit: for every
value and every fuel, a successful run returns a state with the same
`n_indent` it started with. -/
theorem serialize_value_n_indent (fuel : Nat) :
    ∀ (v : Value) (s s' : ser.Serializer),
      ser.serialize_value fuel v s = .ok s' → s'.n_indent = s.n_indent := by
  induction fuel with
  | zero => intro v s s' h; exact Except.noConfusion h
  | succ n ih =>
    intro v s s' h
    cases v with
    | vBool b => exact ser_item_n_indent _ _ _ h
    | vInt m => exact ser_item_n_indent _ _ _ h
    | vChar c => exact ser_item_n_indent _ _ _ h
    | vText t => exact serialize_str_n_indent _ _ _ h
    | vNone =>
      simp only [ser.serialize_value, Except.ok.injEq] at h
      rw [← h]
    | vSome w =>
      have h2 := ih w _ _ h
      rw [h2]
      unfold ser.Serializer.set_modifier
      split <;> rfl
    | vList vs =>
      have h2 := ih vs _ _ h
      rw [h2]
      unfold ser.Serializer.set_modifier
      split <;> rfl
    | vLNil =>
      simp only [ser.serialize_value, Except.ok.injEq] at h
      rw [← h]
    | vLCons v rest =>
      simp only [ser.serialize_value] at h
      rcases h1 : ser.serialize_value n v s with e | s1 <;> rw [h1] at h
      · exact Except.noConfusion h
      · simp only [except_ok_bind] at h
        rw [ih rest s1 s' h, ih v s s1 h1]
    | vRecord fs =>
      simp only [ser.serialize_value] at h
      rcases h1 : ser.serialize_value n fs s.push_stack with e | s1 <;>
        rw [h1] at h
      · exact Except.noConfusion h
      · simp only [except_ok_bind, Except.ok.injEq] at h
        rw [← h, pop_stack_n_indent, ih fs _ s1 h1]
        rfl
    | vFNil =>
      simp only [ser.serialize_value, Except.ok.injEq] at h
      rw [← h]
    | vFCons k v rest =>
      simp only [ser.serialize_value] at h
      rcases h1 : ser.ser_key s k with e | s1 <;> rw [h1] at h
      · exact Except.noConfusion h
      · simp only [except_ok_bind] at h
        rcases h2 : ser.serialize_value n v s1 with e | s2 <;> rw [h2] at h
        · exact Except.noConfusion h
        · simp only [except_ok_bind] at h
          rw [ih rest s2 s' h, ih v s1 s2 h2, ser_key_n_indent s k s1 h1]

/-- C7: `Date::new` accepts exactly the 10-byte strings `YYYY-MM-DD`
whose month is between 1 and 12 and whose day is between 1 and the
actual number of days in that month, with February's length decided by
the Gregorian leap-year rule (divisible by 4 and (not by 100, or by
400)): the acceptance of `Date.new` coincides with the predicate
`date_spec_accepts` transcribed from the specification on every byte
sequence.  The concrete conjuncts run the specification's example pair:
`2000-02-29` parses as a valid date and `1900-02-29` fails with
`ExpectedDate`. -/
theorem claim_c7_date_validation :
    (∀ (bytes : List Nat), (Date.new bytes).isOk = date_spec_accepts bytes) ∧
    Date.new (ascii_bytes "2000-02-29") =
      .ok { year := 2000, month := 2, day := 29 } ∧
    Date.new (ascii_bytes "1900-02-29") = .error .expectedDate := by
  refine ⟨?_, rfl, rfl⟩
  intro bytes
  rcases bytes with _ | ⟨y0, _ | ⟨y1, _ | ⟨y2, _ | ⟨y3, _ | ⟨da, _ | ⟨m0, _ | ⟨m1, _ | ⟨db, _ | ⟨d0, _ | ⟨d1, _ | ⟨x, rest⟩⟩⟩⟩⟩⟩⟩⟩⟩⟩⟩
  case nil => rfl
  all_goals try rfl
  by_cases hda : da = 45
  case neg =>
    simp [Except.isOk, Except.toBool, Date.new, date_spec_accepts, hda]
    split <;> rfl
  by_cases hdb : db = 45
  case neg =>
    simp [Except.isOk, Except.toBool, Date.new, date_spec_accepts, hdb]
    split <;> rfl
  subst hda; subst hdb
  rcases ha : digit y0 with _ | a
  · simp [Except.isOk, Except.toBool, Date.new, date_spec_accepts, parse_year, parse_4_digits, ha]
  rcases hb : digit y1 with _ | b
  · simp [Except.isOk, Except.toBool, Date.new, date_spec_accepts, parse_year, parse_4_digits, ha, hb]
  rcases hc : digit y2 with _ | c
  · simp [Except.isOk, Except.toBool, Date.new, date_spec_accepts, parse_year, parse_4_digits, ha, hb, hc]
  rcases hd : digit y3 with _ | d
  · simp [Except.isOk, Except.toBool, Date.new, date_spec_accepts, parse_year, parse_4_digits, ha, hb,
      hc, hd]
  rcases he : digit m0 with _ | e
  · simp [Except.isOk, Except.toBool, Date.new, date_spec_accepts, parse_year, parse_4_digits,
      parse_month, parse_2_digits, ha, hb, hc, hd, he]
  rcases hf : digit m1 with _ | f
  · simp [Except.isOk, Except.toBool, Date.new, date_spec_accepts, parse_year, parse_4_digits,
      parse_month, parse_2_digits, ha, hb, hc, hd, he, hf]
  rcases hg : digit d0 with _ | g
  · simp only [Date.new, date_spec_accepts, parse_year, parse_4_digits,
      parse_month, parse_2_digits, parse_day, days_in_month, List.take,
      List.drop, ha, hb, hc, hd, he, hf, hg]
    rw [if_pos ⟨rfl, rfl, rfl⟩]
    repeat first | rfl | split
  rcases hh : digit d1 with _ | h
  · simp only [Date.new, date_spec_accepts, parse_year, parse_4_digits,
      parse_month, parse_2_digits, parse_day, days_in_month, List.take,
      List.drop, ha, hb, hc, hd, he, hf, hg, hh]
    rw [if_pos ⟨rfl, rfl, rfl⟩]
    repeat first | rfl | split
  simp only [Date.new, date_spec_accepts, parse_year, parse_4_digits,
    parse_month, parse_2_digits, parse_day, List.take, List.drop,
    ha, hb, hc, hd, he, hf, hg, hh]
  rw [if_pos ⟨rfl, rfl, rfl⟩]
  clear ha hb hc hd he hf hg hh
  generalize a * 1000 + b * 100 + c * 10 + d = Y
  generalize e * 10 + f = M
  generalize g * 10 + h = D
  by_cases hM : 1 ≤ M ∧ M ≤ 12
  case neg => simp [hM, Except.isOk, Except.toBool]
  obtain ⟨hM1, hM2⟩ := hM
  rw [if_pos ⟨hM1, hM2⟩]
  dsimp only
  by_cases h4 : M = 4 ∨ M = 6 ∨ M = 9 ∨ M = 11
  · rw [show days_in_month Y M = some 30 from by
        rcases h4 with h | h | h | h <;> simp [days_in_month, h]]
    rw [show days_in_month_spec Y M = 30 from by
        rcases h4 with h | h | h | h <;> simp [days_in_month_spec, h]]
    dsimp only
    by_cases hD : 1 ≤ D ∧ D ≤ 31
    · rw [if_pos hD]
      dsimp only
      split_ifs with hDK <;> simp [Except.isOk, Except.toBool, hM1, hM2, hD.1, hDK]
    · rw [if_neg hD]
      dsimp only [Except.isOk, Except.toBool]
      symm
      rw [decide_eq_false_iff_not]
      rintro ⟨-, -, -, h1, h2⟩
      omega
  by_cases h31 : M = 1 ∨ M = 3 ∨ M = 5 ∨ M = 7 ∨ M = 8 ∨ M = 10 ∨ M = 12
  · rw [show days_in_month Y M = some 31 from by
        rcases h31 with h | h | h | h | h | h | h <;> simp [days_in_month, h4, h]]
    rw [show days_in_month_spec Y M = 31 from by
        rcases h31 with h | h | h | h | h | h | h <;>
          simp [days_in_month_spec, h]]
    dsimp only
    by_cases hD : 1 ≤ D ∧ D ≤ 31
    · rw [if_pos hD]
      dsimp only
      split_ifs with hDK <;> simp [Except.isOk, Except.toBool, hM1, hM2, hD.1, hDK]
    · rw [if_neg hD]
      dsimp only [Except.isOk, Except.toBool]
      symm
      rw [decide_eq_false_iff_not]
      rintro ⟨-, -, -, h1, h2⟩
      omega
  by_cases h2 : M = 2
  · subst h2
    by_cases hL : Y % 4 = 0 ∧ (Y % 100 ≠ 0 ∨ Y % 400 = 0)
    · rw [show days_in_month Y 2 = some 29 from by
          simp [days_in_month, is_leap_year, hL]]
      rw [show days_in_month_spec Y 2 = 29 from by
          simp [days_in_month_spec, leap_year_spec, hL]]
      dsimp only
      by_cases hD : 1 ≤ D ∧ D ≤ 31
      · rw [if_pos hD]
        dsimp only
        split_ifs with hDK <;> simp [Except.isOk, Except.toBool, hD.1, hDK]
      · rw [if_neg hD]
        dsimp only [Except.isOk, Except.toBool]
        symm
        rw [decide_eq_false_iff_not]
        rintro ⟨-, -, -, h1, h2⟩
        omega
    · rw [show days_in_month Y 2 = some 28 from by
          simp [days_in_month, is_leap_year, hL]]
      rw [show days_in_month_spec Y 2 = 28 from by
          simp [days_in_month_spec, leap_year_spec, hL]]
      dsimp only
      by_cases hD : 1 ≤ D ∧ D ≤ 31
      · rw [if_pos hD]
        dsimp only
        split_ifs with hDK <;> simp [Except.isOk, Except.toBool, hD.1, hDK]
      · rw [if_neg hD]
        dsimp only [Except.isOk, Except.toBool]
        symm
        rw [decide_eq_false_iff_not]
        rintro ⟨-, -, -, h1, h2⟩
        omega
  · exfalso
    omega


/-- An empty split section never passes the section check. -/
theorem section_ok_nil (radix : Nat) : parse.section_ok radix [] = false := rfl

/-- A section list containing an empty section fails the check. -/
theorem all_sections_false_of_mem_nil (radix : Nat) (l : List Str)
    (h : [] ∈ l) : l.all (parse.section_ok radix) = false := by
  cases hall : l.all (parse.section_ok radix)
  · rfl
  · have hsec := List.all_eq_true.mp hall [] h
    rw [section_ok_nil] at hsec
    exact Bool.noConfusion hsec

/-- A section list with a section whose last character is not a digit of
the radix fails the check. -/
theorem all_sections_false_of_bad_last (radix : Nat) (l : List Str)
    (sec : Str) (c : Char) (hmem : sec ∈ l) (hlast : sec.getLast? = some c)
    (hc : (parse.char_to_digit c radix).isSome = false) :
    l.all (parse.section_ok radix) = false := by
  cases hall : l.all (parse.section_ok radix)
  · rfl
  · have hsec := List.all_eq_true.mp hall sec hmem
    unfold parse.section_ok at hsec
    rw [hlast] at hsec
    rcases hh : sec.head? with _ | c1 <;> rw [hh] at hsec
    · simp at hsec
    · simp [hc] at hsec

/-- A section list with a section whose first character is not a digit
of the radix fails the check. -/
theorem all_sections_false_of_bad_head (radix : Nat) (l : List Str)
    (sec : Str) (c : Char) (hmem : sec ∈ l) (hhead : sec.head? = some c)
    (hc : (parse.char_to_digit c radix).isSome = false) :
    l.all (parse.section_ok radix) = false := by
  cases hall : l.all (parse.section_ok radix)
  · rfl
  · have hsec := List.all_eq_true.mp hall sec hmem
    unfold parse.section_ok at hsec
    rw [hhead] at hsec
    rcases hl : sec.getLast? with _ | c2 <;> rw [hl] at hsec
    · simp at hsec
    · simp [hc] at hsec

/-- Unfolding equation for splitting a cons cell on the underscore. -/
theorem splitOn_underscore_cons (c : Char) (s : Str) :
    (c :: s).splitOn '_' =
      if c = '_' then [] :: s.splitOn '_'
      else (s.splitOn '_').modifyHead (List.cons c) := by
  simp only [List.splitOn, List.splitOnP_cons, beq_iff_eq]

/-- Splitting on the underscore never yields an empty section list. -/
theorem splitOn_underscore_ne_nil (s : Str) : s.splitOn '_' ≠ [] := by
  simp only [List.splitOn]
  exact List.splitOnP_ne_nil _ _

/-- A string ending in an underscore splits into at least two sections. -/
theorem splitOn_concat_underscore_len (v : Str) :
    2 ≤ ((v ++ ['_']).splitOn '_').length := by
  induction v with
  | nil => decide
  | cons c v ih =>
    rw [List.cons_append, splitOn_underscore_cons]
    split
    · rw [List.length_cons]
      rcases hl : (v ++ ['_']).splitOn '_' with _ | ⟨hd, tl⟩
      · exact absurd hl (splitOn_underscore_ne_nil _)
      · simp
    · rw [List.length_modifyHead]
      exact ih

/-- The last section of a string ending in an underscore is empty. -/
theorem splitOn_concat_underscore_getLast (v : Str) :
    ((v ++ ['_']).splitOn '_').getLast? = some [] := by
  induction v with
  | nil => decide
  | cons c v ih =>
    rw [List.cons_append, splitOn_underscore_cons]
    split
    · rcases hl : (v ++ ['_']).splitOn '_' with _ | ⟨hd, tl⟩
      · exact absurd hl (splitOn_underscore_ne_nil _)
      · rw [hl] at ih
        rw [List.getLast?_cons_cons]
        exact ih
    · rcases hl : (v ++ ['_']).splitOn '_' with _ | ⟨hd, tl⟩
      · exact absurd hl (splitOn_underscore_ne_nil _)
      · rw [List.modifyHead_cons]
        rcases tl with _ | ⟨t1, trest⟩
        · have h2 := splitOn_concat_underscore_len v
          rw [hl] at h2
          simp at h2
        · rw [List.getLast?_cons_cons]
          rw [hl, List.getLast?_cons_cons] at ih
          exact ih

/-- A doubled underscore leaves an empty section after the first one. -/
theorem splitOn_doubled_underscore_mem (a b : Str) :
    [] ∈ ((a ++ '_' :: '_' :: b).splitOn '_').tail := by
  induction a with
  | nil =>
    rw [List.nil_append, splitOn_underscore_cons, if_pos rfl, List.tail_cons,
      splitOn_underscore_cons, if_pos rfl]
    exact List.mem_cons_self _ _
  | cons c a ih =>
    rw [List.cons_append, splitOn_underscore_cons]
    split
    · rw [List.tail_cons]
      exact List.mem_of_mem_tail ih
    · rcases hl : (a ++ '_' :: '_' :: b).splitOn '_' with _ | ⟨hd, tl⟩
      · exact absurd hl (splitOn_underscore_ne_nil _)
      · rw [List.modifyHead_cons, List.tail_cons]
        rw [hl, List.tail_cons] at ih
        exact ih

/-- The character right before an underscore ends its split section. -/
theorem splitOn_before_underscore (a b : Str) (c : Char) (hc : c ≠ '_') :
    ∃ sec ∈ (a ++ c :: '_' :: b).splitOn '_', sec.getLast? = some c := by
  induction a with
  | nil =>
    rw [List.nil_append, splitOn_underscore_cons, if_neg hc,
      splitOn_underscore_cons, if_pos rfl, List.modifyHead_cons]
    exact ⟨[c], List.mem_cons_self _ _, rfl⟩
  | cons x a ih =>
    rw [List.cons_append, splitOn_underscore_cons]
    split
    · obtain ⟨sec, hmem, hlast⟩ := ih
      exact ⟨sec, List.mem_cons_of_mem _ hmem, hlast⟩
    · obtain ⟨sec, hmem, hlast⟩ := ih
      rcases hl : (a ++ c :: '_' :: b).splitOn '_' with _ | ⟨hd, tl⟩
      · exact absurd hl (splitOn_underscore_ne_nil _)
      · rw [List.modifyHead_cons]
        rw [hl] at hmem
        rcases List.mem_cons.mp hmem with hsec | hsec
        · subst hsec
          refine ⟨x :: sec, List.mem_cons_self _ _, ?_⟩
          rcases sec with _ | ⟨s0, srest⟩
          · simp at hlast
          · rw [List.getLast?_cons_cons]
            exact hlast
        · exact ⟨sec, List.mem_cons_of_mem _ hsec, hlast⟩

/-- The character right after an underscore begins a split section that
is not the first one. -/
theorem splitOn_after_underscore (a b : Str) (c : Char) (hc : c ≠ '_') :
    ∃ sec ∈ ((a ++ '_' :: c :: b).splitOn '_').tail, sec.head? = some c := by
  induction a with
  | nil =>
    rw [List.nil_append, splitOn_underscore_cons, if_pos rfl, List.tail_cons,
      splitOn_underscore_cons, if_neg hc]
    rcases hl : b.splitOn '_' with _ | ⟨hd, tl⟩
    · exact absurd hl (splitOn_underscore_ne_nil _)
    · rw [List.modifyHead_cons]
      exact ⟨c :: hd, List.mem_cons_self _ _, rfl⟩
  | cons x a ih =>
    rw [List.cons_append, splitOn_underscore_cons]
    split
    · rw [List.tail_cons]
      obtain ⟨sec, hmem, hhead⟩ := ih
      exact ⟨sec, List.mem_of_mem_tail hmem, hhead⟩
    · rcases hl : (a ++ '_' :: c :: b).splitOn '_' with _ | ⟨hd, tl⟩
      · exact absurd hl (splitOn_underscore_ne_nil _)
      · rw [List.modifyHead_cons, List.tail_cons]
        rw [hl, List.tail_cons] at ih
        exact ih

/-- Stripping a sign only removes characters. -/
theorem mem_strip_sign (v : Str) (x : Char) (h : x ∈ parse.strip_sign v) :
    x ∈ v := by
  rcases v with _ | ⟨c, rest⟩
  · exact h
  · by_cases hsign : c = '-' ∨ c = '+'
    · rw [show parse.strip_sign (c :: rest) = rest from by
          show (if c = '-' ∨ c = '+' then rest else c :: rest) = rest
          rw [if_pos hsign]] at h
      exact List.mem_cons_of_mem _ h
    · rw [show parse.strip_sign (c :: rest) = c :: rest from by
          show (if c = '-' ∨ c = '+' then rest else c :: rest) = c :: rest
          rw [if_neg hsign]] at h
      exact h

/-- `sanitize_num` fails whenever the section check fails on a value
containing an underscore. -/
theorem sanitize_num_none_of_sections (radix : Nat) (value : Str)
    (hmem : '_' ∈ value)
    (hall : ((parse.strip_sign value).splitOn '_').all
      (parse.section_ok radix) = false) :
    parse.sanitize_num value radix = none := by
  unfold parse.sanitize_num
  rw [if_neg (by simp [hmem])]
  rw [if_neg (by simp [hall])]

/-- The shared tail of `from_str_radix` after the sign is resolved: a
successful parse passed the final range check. -/
theorem from_str_radix_tail {ty : IntTy} {radix : Nat} (neg : Bool)
    (ds : Str) (n : Int)
    (h : (if ds.isEmpty then none
          else
            match parse.digits_to_nat radix ds with
            | none => none
            | some v =>
              let x : Int := if neg then -(v : Int) else (v : Int)
              if ty.min ≤ x ∧ x ≤ ty.max then some x else none) = some n) :
    ty.min ≤ n ∧ n ≤ ty.max := by
  split at h
  · exact Option.noConfusion h
  · split at h
    · exact Option.noConfusion h
    · rename_i v heq
      dsimp only at h
      set x : Int := if neg = true then -(v : Int) else (v : Int) with hx
      split at h
      · rw [Option.some.injEq] at h
        subst h
        assumption
      · exact Option.noConfusion h

/-- C8: integer literal parsing is decimal by default, binary with a
`b` prefix and hexadecimal with an `x` prefix (first three conjuncts,
mirroring `parse::int`); a `+` or `-` sign after a radix prefix makes
the parse fail (`int_radix` rejects any value starting with a sign);
a failed sanitize step fails the radix parse; an underscore is accepted
only when flanked by digits of the active radix: `sanitize_num` fails
on a leading underscore, a trailing underscore, a doubled underscore, a
non-digit immediately before an underscore and a non-digit immediately
after an underscore (five general conjuncts over the sign-stripped
value); a successful `from_str_radix` always lands inside the target
type's range, so a value that does not fit the requested width fails.
The concrete conjuncts exercise every clause on the crate's own test
values. -/
theorem claim_c8_int_literals :
    (∀ (ty : IntTy) (rest : Str),
      parse.int ty ('b' :: rest) = parse.int_radix ty rest 2) ∧
    (∀ (ty : IntTy) (rest : Str),
      parse.int ty ('x' :: rest) = parse.int_radix ty rest 16) ∧
    (∀ (ty : IntTy) (c : Char) (rest : Str), c ≠ 'b' → c ≠ 'x' →
      parse.int ty (c :: rest) =
        (parse.sanitize_num (c :: rest) 10).bind (parse.from_str_radix ty 10)) ∧
    (∀ (ty : IntTy) (radix : Nat) (v : Str),
      parse.starts_with_sign v = true → parse.int_radix ty v radix = none) ∧
    (∀ (ty : IntTy) (radix : Nat) (v : Str),
      parse.sanitize_num v radix = none → parse.int_radix ty v radix = none) ∧
    (∀ (radix : Nat) (value rest : Str),
      parse.strip_sign value = '_' :: rest →
      parse.sanitize_num value radix = none) ∧
    (∀ (radix : Nat) (value a : Str),
      parse.strip_sign value = a ++ ['_'] →
      parse.sanitize_num value radix = none) ∧
    (∀ (radix : Nat) (value a b : Str),
      parse.strip_sign value = a ++ '_' :: '_' :: b →
      parse.sanitize_num value radix = none) ∧
    (∀ (radix : Nat) (value a b : Str) (c : Char),
      parse.strip_sign value = a ++ c :: '_' :: b → c ≠ '_' →
      (parse.char_to_digit c radix).isSome = false →
      parse.sanitize_num value radix = none) ∧
    (∀ (radix : Nat) (value a b : Str) (c : Char),
      parse.strip_sign value = a ++ '_' :: c :: b → c ≠ '_' →
      (parse.char_to_digit c radix).isSome = false →
      parse.sanitize_num value radix = none) ∧
    (∀ (ty : IntTy) (radix : Nat) (s : Str) (n : Int),
      parse.from_str_radix ty radix s = some n → ty.min ≤ n ∧ n ≤ ty.max) ∧
    parse.int IntTy.u8 (str "b101") = some 5 ∧
    parse.int IntTy.u8 (str "xff") = some 255 ∧
    parse.int IntTy.u8 (str "15") = some 15 ∧
    parse.int IntTy.i8 (str "-15") = some (-15) ∧
    parse.int IntTy.i32 (str "b-1") = none ∧
    parse.int IntTy.i32 (str "x+1") = none ∧
    parse.int IntTy.u32 (str "1_000") = some 1000 ∧
    parse.int IntTy.u8 (str "xf_f") = some 255 ∧
    parse.int IntTy.u32 (str "_1") = none ∧
    parse.int IntTy.u32 (str "1_") = none ∧
    parse.int IntTy.u32 (str "1__0") = none ∧
    parse.int IntTy.u8 (str "x_ff") = none ∧
    parse.int IntTy.u8 (str "256") = none ∧
    parse.int IntTy.u8 (str "255") = some 255 ∧
    parse.int IntTy.i8 (str "-129") = none ∧
    parse.int IntTy.i8 (str "-128") = some (-128) := by
  refine ⟨fun ty rest => rfl, fun ty rest => rfl, ?_, ?_, ?_, ?_, ?_, ?_, ?_,
    ?_, ?_, rfl, rfl, rfl, rfl, rfl, rfl, rfl, rfl, rfl, rfl, rfl, rfl, rfl,
    rfl, rfl, rfl⟩
  · intro ty c rest hb hx
    rw [parse.int.eq_def]
    split
    · rename_i heq
      rw [List.cons.injEq] at heq
      exact absurd heq.1 hb
    · rename_i heq
      rw [List.cons.injEq] at heq
      exact absurd heq.1 hx
    · rfl
  · intro ty radix v hsign
    unfold parse.int_radix
    rw [if_pos hsign]
  · intro ty radix v hnone
    unfold parse.int_radix
    split
    · rfl
    · rw [hnone]
      rfl
  · intro radix value rest hstrip
    have hmem : '_' ∈ value :=
      mem_strip_sign _ _ (hstrip ▸ List.mem_cons_self _ _)
    refine sanitize_num_none_of_sections radix value hmem ?_
    rw [hstrip, splitOn_underscore_cons, if_pos rfl]
    exact all_sections_false_of_mem_nil radix _ (List.mem_cons_self _ _)
  · intro radix value a hstrip
    have hmem : '_' ∈ value :=
      mem_strip_sign _ _ (hstrip ▸ List.mem_append_right a (List.mem_cons_self _ _))
    refine sanitize_num_none_of_sections radix value hmem ?_
    rw [hstrip]
    exact all_sections_false_of_mem_nil radix _
      (List.mem_of_mem_getLast? (splitOn_concat_underscore_getLast a))
  · intro radix value a b hstrip
    have hmem : '_' ∈ value :=
      mem_strip_sign _ _
        (hstrip ▸ List.mem_append_right a (List.mem_cons_self _ _))
    refine sanitize_num_none_of_sections radix value hmem ?_
    rw [hstrip]
    exact all_sections_false_of_mem_nil radix _
      (List.mem_of_mem_tail (splitOn_doubled_underscore_mem a b))
  · intro radix value a b c hstrip hc hdig
    have hmem : '_' ∈ value :=
      mem_strip_sign _ _
        (hstrip ▸ List.mem_append_right a
          (List.mem_cons_of_mem c (List.mem_cons_self _ _)))
    refine sanitize_num_none_of_sections radix value hmem ?_
    rw [hstrip]
    obtain ⟨sec, hsmem, hslast⟩ := splitOn_before_underscore a b c hc
    exact all_sections_false_of_bad_last radix _ sec c hsmem hslast hdig
  · intro radix value a b c hstrip hc hdig
    have hmem : '_' ∈ value :=
      mem_strip_sign _ _
        (hstrip ▸ List.mem_append_right a (List.mem_cons_self _ _))
    refine sanitize_num_none_of_sections radix value hmem ?_
    rw [hstrip]
    obtain ⟨sec, hsmem, hshead⟩ := splitOn_after_underscore a b c hc
    exact all_sections_false_of_bad_head radix _ sec c
      (List.mem_of_mem_tail hsmem) hshead hdig
  · intro ty radix s n h
    rcases s with _ | ⟨c, rest⟩
    · exact Option.noConfusion h
    · unfold parse.from_str_radix at h
      dsimp only at h
      by_cases hp : c = '+'
      · rw [if_pos hp] at h
        dsimp only at h
        exact from_str_radix_tail false rest n h
      · rw [if_neg hp] at h
        by_cases hm : c = '-'
        · rw [if_pos hm] at h
          by_cases hsigned : ty.signed = true
          · rw [if_pos hsigned] at h
            dsimp only at h
            exact from_str_radix_tail true rest n h
          · rw [if_neg hsigned] at h
            dsimp only at h
            exact Option.noConfusion h
        · rw [if_neg hm] at h
          dsimp only at h
          exact from_str_radix_tail false (c :: rest) n h

/-- C8 witness: the integer-parsing theorem applied at concrete
inputs — the default-decimal equation at `15`, the sign rejection for
binary `-1`, the bad-neighbour underscore rejection for `z_1`, and the
range property at a successful `255` parse for `u8`. -/
theorem claim_c8_int_literals_witness :
    parse.int IntTy.u8 (str "15") =
      (parse.sanitize_num (str "15") 10).bind (parse.from_str_radix IntTy.u8 10) ∧
    parse.int_radix IntTy.u8 (str "-1") 2 = none ∧
    parse.sanitize_num (str "z_1") 10 = none ∧
    IntTy.u8.min ≤ (255 : Int) ∧ (255 : Int) ≤ IntTy.u8.max :=
  ⟨claim_c8_int_literals.2.2.1 IntTy.u8 '1' (str "5") (by decide) (by decide),
   claim_c8_int_literals.2.2.2.1 IntTy.u8 2 (str "-1") rfl,
   claim_c8_int_literals.2.2.2.2.2.2.2.2.1 10 (str "z_1") [] (str "1") 'z'
     rfl (by decide) rfl,
   claim_c8_int_literals.2.2.2.2.2.2.2.2.2.2.1 IntTy.u8 10 (str "255") 255
     rfl⟩

/-- C9: when the serializer pops a record branch none of whose fields
were written (`visited = false`), it still writes the record's own key
line: any pending linefeed, the parent level's indentation, the
record's key, then `:` and a linefeed, with nothing beneath
(`Serializer::pop_stack` via `write_unvisited_key` in `src/ser.rs`).
The concrete conjuncts serialize a record whose every field is an
absent option: its key line `name:` still appears in the output. -/
theorem claim_c9_empty_record_key_line :
    (∀ (s : ser.Serializer) (b parent : ser.Branch) (rest : List ser.Branch)
       (k : Str), s.stack = b :: parent :: rest → b.visited = false →
       parent.key = some k →
       s.pop_stack = { s with
         stack := { parent with visited := true } :: rest,
         output := s.output ++
           (match s.line with
            | .afterValue => str "\n"
            | .start => []) ++
           List.replicate (rest.length * s.n_indent) ' ' ++ k ++ str ":\n",
         indent := rest.length + 1,
         line := .start }) ∧
    to_string (record_value
      [(str "name", record_value [(str "label", Value.vNone)]),
       (str "other", Value.vInt 25)]) = .ok (str "name:\nother: 25\n") ∧
    to_string (record_value
      [(str "name", record_value [(str "label", Value.vNone)])]) =
      .ok (str "name:\n") := by
  refine ⟨?_, rfl, rfl⟩
  intro s b parent rest k h1 h2 h3
  unfold ser.Serializer.pop_stack
  rw [h1]
  dsimp only
  rw [h2]
  simp only [Bool.false_eq_true, not_false_eq_true, if_true, ite_true]
  unfold ser.Serializer.write_unvisited_key ser.Serializer.write_key
    ser.Serializer.nesting ser.Serializer.set_indent
    ser.Serializer.write_linefeed ser.Serializer.write_indent
    ser.Serializer.write_raw ser.Serializer.nth_branch
    ser.Serializer.visit_branch ser.Serializer.modify_branch
  cases hl : s.line <;>
    simp [h3, Nat.add_sub_cancel, List.length_cons, str] <;>
    simp [ser.Serializer.nesting, List.append_assoc]

/-- C9 witness: the pop-stack theorem applied at a concrete serializer
state whose top branch is unvisited and whose parent level holds the
key `name`. -/
theorem claim_c9_empty_record_key_line_witness :
    ({ n_indent := 2, output := [], stack :=
        [sbranch none 0 .no false, sbranch (some (str "name")) 1 .no false],
       is_key := false, indent := 1, line := .start, separator := .normal } :
        ser.Serializer).pop_stack =
      { n_indent := 2, output :=
          [] ++
          (match ser.LinePos.start with
           | .afterValue => str "\n"
           | .start => []) ++
          List.replicate (List.length ([] : List ser.Branch) * 2) ' ' ++
          str "name" ++ str ":\n",
        stack := [{ sbranch (some (str "name")) 1 .no false with
          visited := true }],
        is_key := false, indent := List.length ([] : List ser.Branch) + 1,
        line := .start, separator := .normal } :=
  claim_c9_empty_record_key_line.1 _
    (sbranch none 0 .no false) (sbranch (some (str "name")) 1 .no false)
    [] (str "name") rfl rfl rfl

/-- C10: `Serializer::new` clamps the requested indent to at least one
space; all three public entry points (`to_string`, `to_vec`,
`to_writer`) construct the serializer with a 2-space indent; the driver
never changes the indent unit; and `write_indent` at depth `d` writes
exactly `d * n_indent` spaces, so any state reached from a public entry
point indents depth `d` by exactly `2 * d` spaces. -/
theorem claim_c10_public_indent_two :
    (∀ (n : Nat) (w : Str), (ser.Serializer.new n w).n_indent = n.max 1) ∧
    (∀ (n : Nat) (w : Str), 1 ≤ (ser.Serializer.new n w).n_indent) ∧
    ((ser.Serializer.new 2 []).n_indent = 2) ∧
    (∀ (v : Value), to_string v =
      (ser.serialize_value (v.weight + 1) v (ser.Serializer.new 2 [])).map
        (fun s => s.output)) ∧
    (∀ (v : Value), to_vec v = to_string v) ∧
    (∀ (v : Value), to_writer [] v = to_string v) ∧
    (∀ (fuel : Nat) (v : Value) (s s' : ser.Serializer),
      ser.serialize_value fuel v s = .ok s' → s'.n_indent = s.n_indent) ∧
    (∀ (s : ser.Serializer) (d : Nat),
      (s.write_indent d).output = s.output ++
        List.replicate (d * s.n_indent) ' ') ∧
    (∀ (fuel : Nat) (v : Value) (s' : ser.Serializer),
      ser.serialize_value fuel v (ser.Serializer.new 2 []) = .ok s' →
      ∀ d, (s'.write_indent d).output = s'.output ++
        List.replicate (d * 2) ' ') := by
  refine ⟨fun n w => rfl, ?_, rfl, ?_, fun v => rfl, fun v => rfl,
    fun fuel => serialize_value_n_indent fuel, fun s d => rfl, ?_⟩
  · intro n w
    show 1 ≤ n.max 1
    exact Nat.le_max_right n 1
  · intro v
    unfold to_string
    rcases hv : ser.serialize_value (v.weight + 1) v (ser.Serializer.new 2 [])
      with e | s1 <;> simp [hv, Except.map, except_ok_bind, except_error_bind]
  · intro fuel v s' h d
    have h2 := serialize_value_n_indent fuel v _ s' h
    show s'.output ++ List.replicate (d * s'.n_indent) ' ' = _
    rw [h2]
    rfl

/-- C10 witness: the clamp and preservation conjuncts applied at
concrete inputs — a requested indent of 0 is clamped to 1, and
serializing a boolean from a public entry point keeps the 2-space
unit. -/
theorem claim_c10_public_indent_two_witness :
    (ser.Serializer.new 0 []).n_indent = Nat.max 0 1 ∧
    ∀ d, (({ n_indent := 2, output := str ": true", stack := [],
             is_key := false, indent := 0, line := .afterValue,
             separator := .normal } : ser.Serializer).write_indent d).output =
      str ": true" ++ List.replicate (d * 2) ' ' :=
  ⟨claim_c10_public_indent_two.1 0 [],
   fun d => claim_c10_public_indent_two.2.2.2.2.2.2.2.2 1 (.vBool true)
     { n_indent := 2, output := str ": true", stack := [],
       is_key := false, indent := 0, line := .afterValue,
       separator := .normal }
     (by rfl) d⟩
